import Mathlib

/-!
Formal model of the thizjs-express route loader.

This file embeds, in Lean, the two source files of the repository:

* `src/middleware-loader.js` — the `MiddlewareLoader` class (middleware
  catalog: `loadMiddlewares`, `resolveMiddlewares`, `getAvailableMiddlewares`);
* `src/route-loader.js` — the `registerRoutes` and `inspectRoutes` entry
  points (directory walk, path construction, conflict detection, handler and
  middleware resolution, registration with the host Express app).

Modelling conventions:

* JavaScript functions (handlers, middleware callables) are identified by
  natural numbers; invoking a handler is modelled by `invokeHandler`.
* The filesystem tree handed to the walk is a `DirList` of `DirEntry`
  values; a file entry carries the module object that `import` would yield
  (the loader's dynamic import of a file is modelled by reading that field,
  with the same `tsx`-availability gate as the source's `importModule`).
* `Map` objects are insertion-ordered association lists (`mapSet` mirrors
  `Map.set`, `List.lookup` mirrors `Map.get`).
* `console.warn` output of the non-strict dynamic-conflict path is recorded
  in a `warnings` list; `console.log`/`console.error` calls that carry no
  decision-relevant data are not modelled.
* Thrown `Error` objects are modelled as structured values (`WalkError`,
  `MwLoadError`) carrying the data interpolated into the source's message
  strings; message formatting itself is not modelled.
* JavaScript's `String.prototype.localeCompare` (used to sort global
  middlewares) is modelled as lexicographic code-point comparison `strLe`,
  and `Array.prototype.sort` (stable) as stable insertion sort.
* All definitions are structurally recursive so that every function
  evaluates inside the kernel.
-/

/-- Decidable equality for `Except`, so that concrete loader outcomes can
be checked by `decide`. -/
instance {ε α : Type} [DecidableEq ε] [DecidableEq α] : DecidableEq (Except ε α)
  | .error a, .error b =>
    if h : a = b then isTrue (by rw [h]) else isFalse (by intro hh; cases hh; exact h rfl)
  | .error _, .ok _ => isFalse (by intro h; cases h)
  | .ok _, .error _ => isFalse (by intro h; cases h)
  | .ok a, .ok b =>
    if h : a = b then isTrue (by rw [h]) else isFalse (by intro hh; cases hh; exact h rfl)

/-- JavaScript runtime values, as far as the route loader inspects them.
Array elements are middleware names (the declared interface of the
`middlewares` export is `string[]`). -/
inductive JSVal where
  | undefined
  | null
  | bool (b : Bool)
  | num (n : Int)
  | str (s : String)
  | arr (elems : List String)
  | fnVal (id : Nat)
deriving DecidableEq, Repr

/-- JavaScript truthiness, as used by `handlerModule.middlewares || []`. -/
def truthy : JSVal → Bool
  | .undefined => false
  | .null => false
  | .bool b => b
  | .num n => n != 0
  | .str s => s != ""
  | .arr _ => true
  | .fnVal _ => true

/-- JavaScript `typeof`, as interpolated into the invalid-middlewares error. -/
def typeName : JSVal → String
  | .undefined => "undefined"
  | .null => "object"
  | .bool _ => "boolean"
  | .num _ => "number"
  | .str _ => "string"
  | .arr _ => "object"
  | .fnVal _ => "function"

/-! ### Character and string utilities

The source manipulates paths with regular expressions; the corresponding
operations are implemented here on `List Char`, structurally. -/

/-- ASCII lower-casing of one character (JS `toLowerCase` on the characters
that can occur in method file names). -/
def lowerChar (c : Char) : Char :=
  if 65 ≤ c.toNat ∧ c.toNat ≤ 90 then Char.ofNat (c.toNat + 32) else c

/-- ASCII upper-casing of one character (JS `toUpperCase`). -/
def upperChar (c : Char) : Char :=
  if 97 ≤ c.toNat ∧ c.toNat ≤ 122 then Char.ofNat (c.toNat - 32) else c

/-- Lower-case a string (JS `toLowerCase`). -/
def lowerStr (s : String) : String := String.mk (s.toList.map lowerChar)

/-- Upper-case a string (JS `toUpperCase`). -/
def upperStr (s : String) : String := String.mk (s.toList.map upperChar)

/-- A regex `\w` character: ASCII letter, digit or underscore. -/
def isWordChar (c : Char) : Bool :=
  (65 ≤ c.toNat && c.toNat ≤ 90) || (97 ≤ c.toNat && c.toNat ≤ 122) ||
  (48 ≤ c.toNat && c.toNat ≤ 57) || c = '_'

/-- Lexicographic code-point comparison on character lists (the model of
`localeCompare`-based ordering). -/
def lexLeChars : List Char → List Char → Bool
  | [], _ => true
  | _ :: _, [] => false
  | a :: as, b :: bs => if a = b then lexLeChars as bs else a.toNat < b.toNat

/-- Lexicographic order on strings. -/
def strLe (a b : String) : Bool := lexLeChars a.toList b.toList

/-- Strip trailing `/` characters: `prefix.replace(/\/+$/, "")`
(route-loader.js line 17). -/
def stripTrailingSlashes (s : String) : String :=
  String.mk ((s.toList.reverse.dropWhile (fun c => c = '/')).reverse)

/-- Replace every backslash by a slash: `.replace(/\\/g, "/")`
(route-loader.js line 101). -/
def backslashToSlashL (l : List Char) : List Char :=
  l.map (fun c => if c = '\\' then '/' else c)

/-- Collapse runs of slashes to a single slash: `.replace(/\/+/g, "/")`
(route-loader.js line 102). -/
def collapseSlashesL : List Char → List Char
  | [] => []
  | [c] => [c]
  | a :: b :: rest =>
    if a = '/' ∧ b = '/' then collapseSlashesL (b :: rest)
    else a :: collapseSlashesL (b :: rest)

/-- Helper for `replaceBracketsL`: consume at least one character, then
everything up to (and excluding) the first `]`; mirrors the non-greedy
group of the regex `\[(.+?)\]`. `splitCloseAux` scans for the first `]`. -/
def splitCloseAux : List Char → Option (List Char × List Char)
  | [] => none
  | c :: rest =>
    if c = ']' then some ([], rest)
    else (splitCloseAux rest).map (fun p => (c :: p.1, p.2))

/-- Find the shortest non-empty chunk terminated by `]` (the `.+?` of the
regex: the content must be at least one character, and may itself start
with `]`). -/
def splitClose : List Char → Option (List Char × List Char)
  | [] => none
  | c :: rest => (splitCloseAux rest).map (fun p => (c :: p.1, p.2))

/-- `p.replace(/\[(.+?)\]/g, ":$1")` (route-loader.js line 97): every
bracketed chunk becomes a `:`-prefixed parameter segment. The scan keeps a
buffer of the characters seen since an unmatched `[` (in reverse). -/
def replBrAux : Option (List Char) → List Char → List Char
  | none, [] => []
  | some buf, [] => '[' :: buf.reverse
  | none, c :: rest =>
    if c = '[' then replBrAux (some []) rest
    else c :: replBrAux none rest
  | some buf, c :: rest =>
    if c = ']' ∧ buf ≠ [] then ':' :: buf.reverse ++ replBrAux none rest
    else replBrAux (some (c :: buf)) rest

/-- Bracket-to-parameter substitution on a string. -/
def replaceBracketsL (l : List Char) : List Char := replBrAux none l

/-- Is the head of the list a `\w` character? -/
def headIsWord : List Char → Bool
  | [] => false
  | d :: _ => isWordChar d

/-- `p.replace(/:\w+/g, ":param")` (route-loader.js lines 32-34,
`normalizeDynamic`): the flag records whether the scan is inside a
parameter name whose characters are being dropped. -/
def normDynAux : Bool → List Char → List Char
  | _, [] => []
  | skipping, c :: rest =>
    if skipping ∧ isWordChar c then normDynAux true rest
    else
      if c = ':' ∧ headIsWord rest then
        ':' :: ('p' :: 'a' :: 'r' :: 'a' :: 'm' :: []) ++ normDynAux true rest
      else c :: normDynAux false rest

/-- `normalizeDynamic` (route-loader.js lines 32-34). -/
def normalizeDynamic (p : String) : String := String.mk (normDynAux false p.toList)

/-- `path.join(dir, name)` for the forward-slash paths of this model. -/
def joinPath (dir name : String) : String := dir ++ "/" ++ name

/-- Split a character list on a separator character. -/
def splitOnChar (sep : Char) : List Char → List (List Char)
  | [] => [[]]
  | c :: rest =>
    match splitOnChar sep rest with
    | [] => [[]]
    | seg :: segs => if c = sep then [] :: seg :: segs else (c :: seg) :: segs

/-- Split a character list on `.` (used to match the anchored method-file
regex, whose alternatives contain no dots). -/
def splitOnDot (l : List Char) : List (List Char) := splitOnChar '.' l

/-- `path.extname`: the extension of the last path segment (empty for
dot-less names and for pure dot-files). -/
def extname (p : String) : String :=
  let cs := (splitOnChar '/' p.toList).getLastD []
  let tail := cs.reverse.takeWhile (fun c => c ≠ '.')
  if cs.length ≤ tail.length + 1 then "" else String.mk ('.' :: tail.reverse)

/-- Does `l` end with the given suffix? (model of `/\.(js|ts)$/.test`). -/
def endsWithL (l suffix : List Char) : Bool :=
  List.isPrefixOf suffix.reverse l.reverse

/-- Does `l` contain `pat` as a contiguous chunk? (JS `includes`). -/
def hasInfixPat (pat : List Char) : List Char → Bool
  | [] => pat.isEmpty
  | c :: rest => List.isPrefixOf pat (c :: rest) || hasInfixPat pat rest

/-- Remove the first occurrence of `pat` (JS `replace` with a non-global
pattern and empty replacement). -/
def removeFirstPat (pat : List Char) : List Char → List Char
  | [] => []
  | c :: rest =>
    if List.isPrefixOf pat (c :: rest) then (c :: rest).drop pat.length
    else c :: removeFirstPat pat rest

/-- `Map.set`: update the value in place if the key exists (keeping
insertion order), otherwise append. -/
def mapSet (m : List (String × Nat)) (k : String) (v : Nat) : List (String × Nat) :=
  if m.any (fun p => p.1 == k) then m.map (fun p => if p.1 == k then (p.1, v) else p)
  else m ++ [(k, v)]

/-- `Map.set` for string-valued maps (file and route registries). -/
def mapSetS (m : List (String × String)) (k v : String) : List (String × String) :=
  if m.any (fun p => p.1 == k) then m.map (fun p => if p.1 == k then (p.1, v) else p)
  else m ++ [(k, v)]

/-! ### Middleware catalog (`MiddlewareLoader`, middleware-loader.js) -/

/-- A file in `src/middlewares/`: its name and the exports its module
yields when imported (`default` and the named `middleware` fallback;
exports are modelled as function identifiers, matching the source's
requirement that the export be a function). -/
structure MwFile where
  name : String
  defaultExport : Option Nat
  middlewareExport : Option Nat
deriving DecidableEq, Repr

/-- An entry of the `globalMiddlewares` array: `{ name, fn }`
(middleware-loader.js lines 997-1000). -/
structure MwEntry where
  name : String
  fn : Nat
deriving DecidableEq, Repr

/-- The loader's state after `loadMiddlewares`: the `middlewareCache` map
and the `globalMiddlewares` array (middleware-loader.js lines 914-915). -/
structure MwState where
  middlewareCache : List (String × Nat)
  globalMiddlewares : List MwEntry
deriving DecidableEq, Repr

/-- Failure of `loadMiddlewares`: a middleware module with no usable
function export (middleware-loader.js lines 986-990). -/
inductive MwLoadError where
  | missingExport (file : String)
deriving DecidableEq, Repr

/-- Does the file name end in `.js` or `.ts` (`/\.(js|ts)$/`)? -/
def endsWithJsTs (s : String) : Bool :=
  endsWithL s.toList ('.' :: 'j' :: 's' :: []) || endsWithL s.toList ('.' :: 't' :: 's' :: [])

/-- The middleware name: the file name with the first `._global` removed
and the `.js`/`.ts` suffix stripped (middleware-loader.js lines 978-980). -/
def mwNameOf (file : String) : String :=
  let noGlobal := removeFirstPat ('.' :: '_' :: 'g' :: 'l' :: 'o' :: 'b' :: 'a' :: 'l' :: []) file.toList
  if endsWithL noGlobal ('.' :: 'j' :: 's' :: []) || endsWithL noGlobal ('.' :: 't' :: 's' :: []) then
    String.mk (noGlobal.take (noGlobal.length - 3))
  else String.mk noGlobal

/-- Is the file a global middleware (`file.includes("._global.")`,
middleware-loader.js line 977)? -/
def isGlobalMw (file : String) : Bool :=
  hasInfixPat ('.' :: '_' :: 'g' :: 'l' :: 'o' :: 'b' :: 'a' :: 'l' :: '.' :: []) file.toList

/-- Processing of one middleware file inside `loadMiddlewares`
(middleware-loader.js lines 966-1009): skip non-`.js`/`.ts` files, derive
the name, require a function export, insert into the cache and, for
globals, append to the global list. -/
def loadStep (st : MwState) (f : MwFile) : Except MwLoadError MwState :=
  if !endsWithJsTs f.name then .ok st
  else
    let mwName := mwNameOf f.name
    match f.defaultExport with
    | some fn =>
      .ok { middlewareCache := mapSet st.middlewareCache mwName fn,
            globalMiddlewares :=
              if isGlobalMw f.name then st.globalMiddlewares ++ [⟨mwName, fn⟩]
              else st.globalMiddlewares }
    | none =>
      match f.middlewareExport with
      | some fn =>
        .ok { middlewareCache := mapSet st.middlewareCache mwName fn,
              globalMiddlewares :=
                if isGlobalMw f.name then st.globalMiddlewares ++ [⟨mwName, fn⟩]
                else st.globalMiddlewares }
      | none => .error (.missingExport f.name)

/-- `loadMiddlewares` (middleware-loader.js lines 955-1015): process every
file, then sort the global list by name (`localeCompare`, modelled as
`strLe`; `Array.sort` is stable, modelled by stable insertion sort). -/
def loadMiddlewares (files : List MwFile) : Except MwLoadError MwState :=
  match files.foldlM loadStep ⟨[], []⟩ with
  | .error e => .error e
  | .ok st =>
    .ok { st with globalMiddlewares :=
            st.globalMiddlewares.insertionSort (fun a b => strLe a.name b.name = true) }

/-- Failure of `resolveMiddlewares`: a requested name missing from the
catalog, reported together with every currently known name
(middleware-loader.js lines 1046-1051). -/
inductive ResolveError where
  | notFound (name : String) (available : List String)
deriving DecidableEq, Repr

/-- The `for (const name of requestedMiddlewares)` loop of
`resolveMiddlewares` (middleware-loader.js lines 1045-1054). -/
def resolveLoop (mw : MwState) : List Nat → List String → Except ResolveError (List Nat)
  | acc, [] => .ok acc
  | acc, n :: rest =>
    match List.lookup n mw.middlewareCache with
    | some f => resolveLoop mw (acc ++ [f]) rest
    | none => .error (.notFound n (mw.middlewareCache.map Prod.fst))

/-- `resolveMiddlewares` (middleware-loader.js lines 1023-1057). -/
def resolveMiddlewares (mw : MwState) (routeMiddlewares : List String) :
    Except ResolveError (List Nat) :=
  if routeMiddlewares.isEmpty then .ok (mw.globalMiddlewares.map MwEntry.fn)
  else
    let skipGlobals := routeMiddlewares.contains "!_global"
    let requested := routeMiddlewares.filter (fun n => n != "!_global")
    resolveLoop mw (if skipGlobals then [] else mw.globalMiddlewares.map MwEntry.fn) requested

/-- `getAvailableMiddlewares` (middleware-loader.js lines 1062-1067). -/
def getAvailableMiddlewares (mw : MwState) : List String × List String :=
  (mw.globalMiddlewares.map MwEntry.name, mw.middlewareCache.map Prod.fst)

/-! ### Route modules, handlers, and the directory tree -/

/-- The module object a route file yields when imported: the `default`
and named `handler` exports (function identifiers), and the `middlewares`
export as a raw JS value. -/
structure RouteModule where
  defaultExport : Option Nat
  handlerExport : Option Nat
  middlewares : JSVal
deriving DecidableEq, Repr

/-- A route handler: either an exported function or the substitute closure
`() => { throw new Error(`No handler exported in ...`) }` that
`registerRoutes` installs when a module exports neither `default` nor
`handler` (route-loader.js lines 161-166). -/
inductive Handler where
  | fn (id : Nat)
  | missingStub (file : String)
deriving DecidableEq, Repr

/-- `handlerModule.default || handlerModule.handler || (() => { throw ... })`
(route-loader.js lines 161-166). -/
def resolveHandler (mod : RouteModule) (fullPath : String) : Handler :=
  match mod.defaultExport with
  | some f => .fn f
  | none =>
    match mod.handlerExport with
    | some f => .fn f
    | none => .missingStub fullPath

/-- Invoking a handler at request time: an exported function runs (its
identifier is returned); the substitute closure throws the deferred
missing-handler error naming the file. -/
def invokeHandler : Handler → Except String Nat
  | .fn f => .ok f
  | .missingStub file => .error ("No handler exported in " ++ file)

mutual
/-- One entry of a directory listing: a sub-directory or a file. A file
carries the module its import would produce. -/
inductive DirEntry where
  | dir (name : String) (children : DirList)
  | file (name : String) (mod : RouteModule)
/-- A directory listing, in `fs.readdirSync` order. -/
inductive DirList where
  | nil
  | cons (e : DirEntry) (rest : DirList)
end

/-- Append two directory listings. -/
def DirList.append : DirList → DirList → DirList
  | .nil, l => l
  | .cons e rest, l => .cons e (DirList.append rest l)

mutual
/-- Number of entries in a tree rooted at one entry (for induction). -/
def entrySize : DirEntry → Nat
  | .dir _ children => 1 + listSize children
  | .file _ _ => 1
/-- Number of entries in a listing (for induction). -/
def listSize : DirList → Nat
  | .nil => 0
  | .cons e rest => entrySize e + listSize rest
end

/-- Match a file name against `/^(GET|POST|PUT|PATCH|DELETE)\.(js|ts)$/i`
(route-loader.js lines 88-90) and return the lower-cased method
(`methodMatch[1].toLowerCase()`) together with the raw extension capture
(`methodMatch[2]`). -/
def parseMethodFile (name : String) : Option (String × String) :=
  match splitOnDot name.toList with
  | [stem, ext] =>
    let stemL := String.mk (stem.map lowerChar)
    let extL := String.mk (ext.map lowerChar)
    if (stemL = "get" ∨ stemL = "post" ∨ stemL = "put" ∨ stemL = "patch" ∨ stemL = "delete") ∧
        (extL = "js" ∨ extL = "ts") then
      some (stemL, String.mk ext)
    else none
  | _ => none

/-- Path construction (route-loader.js lines 97-102): bracket substitution
on the accumulated directory path, concatenation with the normalized
prefix, backslash normalization and slash collapsing. -/
def mkRoutePath (normPfx pfxPath : String) : String :=
  String.mk (collapseSlashesL (backslashToSlashL (normPfx.toList ++ replaceBracketsL pfxPath.toList)))

/-! ### Route walker state and errors (`registerRoutes`, route-loader.js) -/

/-- The data of one non-strict dynamic-conflict warning
(route-loader.js lines 138-149). -/
structure ConflictWarning where
  prevFile : String
  currentFile : String
  method : String
  routePath : String
deriving DecidableEq, Repr

/-- The mutable registries shared by the recursive walk: the fingerprint
registry (`routeRegistry`), the signature registry (`fileRegistry`) and
the warnings emitted so far. -/
structure Registries where
  routeRegistry : List (String × String)
  fileRegistry : List (String × String)
  warnings : List ConflictWarning
deriving DecidableEq, Repr

/-- A route handed to the host application:
`app[method](routePath, ...middlewares, handler)` (route-loader.js line 182). -/
structure RegisteredRoute where
  method : String
  path : String
  chain : List Nat
  handler : Handler
deriving DecidableEq, Repr

/-- The walk state of `registerRoutes`: the registries plus the routes
registered on the host app so far (in registration order). -/
structure WalkState where
  regs : Registries
  registered : List RegisteredRoute
deriving DecidableEq, Repr

/-- Errors thrown during the walk, as structured values. -/
inductive WalkError where
  | extensionConflict (existingFile currentFile method routePath : String)
  | dynamicConflict (prevFile currentFile method routePath : String)
  | tsNotSupported (file : String)
  | invalidMiddlewares (file typeFound : String)
  | middlewareNotFound (name : String) (available : List String)
deriving DecidableEq, Repr

/-- The configuration of one registration call: the normalized prefix,
the `strict` option and whether `tsx` resolved (route-loader.js
lines 15-17 and 39-45). -/
structure WalkCtx where
  normPfx : String
  strict : Bool
  tsx : Bool
deriving DecidableEq, Repr

/-- The extension-conflict check (route-loader.js lines 108-130): if the
`method:routePath` signature is already registered from a file whose
`path.extname` differs from `"." + fileExt`, report that file. -/
def extConflictCheck (fileRegistry : List (String × String)) (sig fileExt : String) :
    Option String :=
  match List.lookup sig fileRegistry with
  | some existing => if extname existing ≠ "." ++ fileExt then some existing else none
  | none => none

/-- The `tsx` gate of `importModule` (route-loader.js lines 50-74): a
`.ts` file cannot be loaded without `tsx`. -/
def importCheck (tsx : Bool) (fullPath : String) : Option WalkError :=
  if extname fullPath == ".ts" && !tsx then some (.tsNotSupported fullPath) else none

/-- `handlerModule.middlewares || []` (route-loader.js line 169): a falsy
`middlewares` export defaults to the empty array before the array check. -/
def middlewaresDecl (mod : RouteModule) : JSVal :=
  if truthy mod.middlewares then mod.middlewares else .arr []

/-- The part of per-file processing after both conflict checks
(route-loader.js lines 155-190): record the file in `fileRegistry`, import
the module, validate the `middlewares` export, resolve the chain and
register the route. On error the registry updates already made persist. -/
def afterConflicts (ctx : WalkCtx) (mw : MwState) (st : WalkState)
    (fullPath m routePath sig : String) (mod : RouteModule) :
    WalkState × Option WalkError :=
  let st2 : WalkState :=
    { st with regs := { st.regs with fileRegistry := mapSetS st.regs.fileRegistry sig fullPath } }
  match importCheck ctx.tsx fullPath with
  | some e => (st2, some e)
  | none =>
    match middlewaresDecl mod with
    | .arr names =>
      match resolveMiddlewares mw names with
      | .error (.notFound nm avail) => (st2, some (.middlewareNotFound nm avail))
      | .ok chain =>
        ({ st2 with registered :=
            st2.registered ++ [⟨m, routePath, chain, resolveHandler mod fullPath⟩] }, none)
    | v => (st2, some (.invalidMiddlewares fullPath (typeName v)))

/-- Per-file processing of `registerRoutes.walk` (route-loader.js
lines 80-194), in source order: method-file match, path construction,
extension-conflict check, dynamic-conflict check (fatal when strict,
warn-and-keep-first otherwise), then `afterConflicts`. -/
def processFile (ctx : WalkCtx) (mw : MwState) (st : WalkState)
    (curDir pfxPath fname : String) (mod : RouteModule) :
    WalkState × Option WalkError :=
  match parseMethodFile fname with
  | none => (st, none)
  | some (m, fileExt) =>
    let fullPath := joinPath curDir fname
    let routePath := mkRoutePath ctx.normPfx pfxPath
    let sig := m ++ ":" ++ routePath
    match extConflictCheck st.regs.fileRegistry sig fileExt with
    | some existing => (st, some (.extensionConflict existing fullPath m routePath))
    | none =>
      let fp := m ++ ":" ++ normalizeDynamic routePath
      match List.lookup fp st.regs.routeRegistry with
      | some prev =>
        if ctx.strict then (st, some (.dynamicConflict prev fullPath m routePath))
        else
          afterConflicts ctx mw
            { st with regs :=
                { st.regs with warnings := st.regs.warnings ++ [⟨prev, fullPath, m, routePath⟩] } }
            fullPath m routePath sig mod
      | none =>
        afterConflicts ctx mw
          { st with regs :=
              { st.regs with routeRegistry := mapSetS st.regs.routeRegistry fp fullPath } }
          fullPath m routePath sig mod

mutual
/-- Process one directory entry of `registerRoutes.walk` (route-loader.js
lines 79-85): directories recurse with an extended path prefix, files go
through `processFile`. -/
def regWalkE (ctx : WalkCtx) (mw : MwState) (st : WalkState) (curDir pfxPath : String) :
    DirEntry → WalkState × Option WalkError
  | .dir name children =>
    regWalk ctx mw st (joinPath curDir name) (pfxPath ++ "/" ++ name) children
  | .file name mod => processFile ctx mw st curDir pfxPath name mod
/-- Process a directory listing in order; a thrown error aborts the rest of
the walk but the state mutations made so far persist (`registerRoutes`
performs no rollback). -/
def regWalk (ctx : WalkCtx) (mw : MwState) (st : WalkState) (curDir pfxPath : String) :
    DirList → WalkState × Option WalkError
  | .nil => (st, none)
  | .cons e rest =>
    match regWalkE ctx mw st curDir pfxPath e with
    | (st', none) => regWalk ctx mw st' curDir pfxPath rest
    | (st', some err) => (st', some err)
end

/-- Options of the entry points (route-loader.js line 15):
`{ prefix = "", strict = false }`. -/
structure RegOptions where
  pfx : String
  strict : Bool
deriving DecidableEq, Repr

/-- A top-level failure: middleware loading failed before the walk, or the
walk itself threw. -/
inductive TopError where
  | mwLoad (e : MwLoadError)
  | walk (e : WalkError)
deriving DecidableEq, Repr

/-- The observable outcome of `registerRoutes`: the routes registered on
the host app (even when an error propagated — no rollback), the console
warnings, and the propagated error if any. -/
structure RegResult where
  registered : List RegisteredRoute
  warnings : List ConflictWarning
  err : Option TopError
deriving DecidableEq, Repr

/-- `registerRoutes(app, routesDir, options)` (route-loader.js lines
14-199): normalize the prefix, build the middleware catalog once, then
walk `src/<routesDir>` from an empty state. The host app is modelled by
the `registered` accumulator; the existence check of the routes directory
is outside the model (the tree is given). -/
def registerRoutes (tsx : Bool) (mwFiles : List MwFile) (tree : DirList)
    (routesDir : String) (opts : RegOptions) : RegResult :=
  let normPfx := stripTrailingSlashes opts.pfx
  let baseDir := "src/" ++ routesDir
  match loadMiddlewares mwFiles with
  | .error e => ⟨[], [], some (.mwLoad e)⟩
  | .ok mw =>
    match regWalk ⟨normPfx, opts.strict, tsx⟩ mw ⟨⟨[], [], []⟩, []⟩ baseDir "" tree with
    | (st, err) => ⟨st.registered, st.regs.warnings, err.map .walk⟩

/-! ### Introspection (`inspectRoutes`, route-loader.js lines 208-392)

`inspectRoutes` duplicates the walk of `registerRoutes` but accumulates
route metadata instead of registering with a host app. It is translated
here separately, from its own source lines, so that the equivalence with
live registration is a theorem rather than a modelling assumption. -/

/-- One entry of the `routes` array built by `inspectRoutes.walk`
(route-loader.js lines 348-355). The middleware display list pairs each
name with its `"global"`/`"route"` classification. The `file` field is
the file path (the source stores it relative to the project root). -/
structure RouteInfo where
  method : String
  path : String
  file : String
  fileType : String
  middlewares : List (String × String)
  handler : String
deriving DecidableEq, Repr

/-- The walk state of `inspectRoutes`: the same registries, plus the
accumulated route metadata. -/
structure InspState where
  regs : Registries
  routes : List RouteInfo
deriving DecidableEq, Repr

/-- The middleware display list of one route (route-loader.js lines
323-345): global names first unless `"!_global"` is declared, then the
declared names with the marker filtered out. -/
def inspMwNames (mw : MwState) (names : List String) : List (String × String) :=
  (if names.contains "!_global" then []
   else mw.globalMiddlewares.map (fun g => (g.name, "global"))) ++
  (names.filter (fun n => n != "!_global")).map (fun n => (n, "route"))

/-- The part of `inspectRoutes.walk` after both conflict checks
(route-loader.js lines 309-360): record the file, import the module,
validate and resolve middlewares, and push the route metadata. -/
def inspAfterConflicts (ctx : WalkCtx) (mw : MwState) (st : InspState)
    (fullPath m fileExt routePath sig : String) (mod : RouteModule) :
    InspState × Option WalkError :=
  let st2 : InspState :=
    { st with regs := { st.regs with fileRegistry := mapSetS st.regs.fileRegistry sig fullPath } }
  match importCheck ctx.tsx fullPath with
  | some e => (st2, some e)
  | none =>
    match middlewaresDecl mod with
    | .arr names =>
      match resolveMiddlewares mw names with
      | .error (.notFound nm avail) => (st2, some (.middlewareNotFound nm avail))
      | .ok _ =>
        ({ st2 with routes := st2.routes ++
            [⟨upperStr m, routePath, fullPath,
              if fileExt == "ts" then "TypeScript" else "JavaScript",
              inspMwNames mw names,
              if mod.defaultExport.isSome then "default" else "handler"⟩] }, none)
    | v => (st2, some (.invalidMiddlewares fullPath (typeName v)))

/-- Per-file processing of `inspectRoutes.walk` (route-loader.js lines
263-360), mirroring the registration walk's checks in the same order. -/
def inspProcessFile (ctx : WalkCtx) (mw : MwState) (st : InspState)
    (curDir pfxPath fname : String) (mod : RouteModule) :
    InspState × Option WalkError :=
  match parseMethodFile fname with
  | none => (st, none)
  | some (m, fileExt) =>
    let fullPath := joinPath curDir fname
    let routePath := mkRoutePath ctx.normPfx pfxPath
    let sig := m ++ ":" ++ routePath
    match extConflictCheck st.regs.fileRegistry sig fileExt with
    | some existing => (st, some (.extensionConflict existing fullPath m routePath))
    | none =>
      let fp := m ++ ":" ++ normalizeDynamic routePath
      match List.lookup fp st.regs.routeRegistry with
      | some prev =>
        if ctx.strict then (st, some (.dynamicConflict prev fullPath m routePath))
        else
          inspAfterConflicts ctx mw
            { st with regs :=
                { st.regs with warnings := st.regs.warnings ++ [⟨prev, fullPath, m, routePath⟩] } }
            fullPath m fileExt routePath sig mod
      | none =>
        inspAfterConflicts ctx mw
          { st with regs :=
              { st.regs with routeRegistry := mapSetS st.regs.routeRegistry fp fullPath } }
          fullPath m fileExt routePath sig mod

mutual
/-- Process one directory entry of `inspectRoutes.walk` (route-loader.js
lines 263-269). -/
def inspWalkE (ctx : WalkCtx) (mw : MwState) (st : InspState) (curDir pfxPath : String) :
    DirEntry → InspState × Option WalkError
  | .dir name children =>
    inspWalk ctx mw st (joinPath curDir name) (pfxPath ++ "/" ++ name) children
  | .file name mod => inspProcessFile ctx mw st curDir pfxPath name mod
/-- Process a directory listing in order for introspection. -/
def inspWalk (ctx : WalkCtx) (mw : MwState) (st : InspState) (curDir pfxPath : String) :
    DirList → InspState × Option WalkError
  | .nil => (st, none)
  | .cons e rest =>
    match inspWalkE ctx mw st curDir pfxPath e with
    | (st', none) => inspWalk ctx mw st' curDir pfxPath rest
    | (st', some err) => (st', some err)
end

/-- `methodOrder.indexOf` for the final sort (route-loader.js line 373). -/
def methodIdx (m : String) : Nat :=
  if m = "GET" then 0 else if m = "POST" then 1 else if m = "PUT" then 2
  else if m = "PATCH" then 3 else if m = "DELETE" then 4 else 5

/-- The comparator of the final route sort (route-loader.js lines
370-377): by method in the fixed priority order, then by path. -/
def routeLe (a b : RouteInfo) : Bool :=
  if methodIdx a.method = methodIdx b.method then strLe a.path b.path
  else methodIdx a.method < methodIdx b.method

/-- `byMethod` accumulation (route-loader.js lines 386-389). -/
def bumpCount (acc : List (String × Nat)) (k : String) : List (String × Nat) :=
  match List.lookup k acc with
  | some n => acc.map (fun p => if p.1 == k then (p.1, n + 1) else p)
  | none => acc ++ [(k, 1)]

/-- The report returned by `inspectRoutes` (route-loader.js lines 369-391). -/
structure InspectReport where
  routes : List RouteInfo
  mwGlobal : List String
  mwAvailable : List String
  totalRoutes : Nat
  totalMiddlewares : Nat
  globalMwCount : Nat
  byMethod : List (String × Nat)
deriving DecidableEq, Repr

/-- The observable outcome of `inspectRoutes`: the report when it
returned, the console warnings emitted, and the propagated error if any. -/
structure InspResult where
  report : Option InspectReport
  warnings : List ConflictWarning
  err : Option TopError
deriving DecidableEq, Repr

/-- `inspectRoutes(routesDir, options)` (route-loader.js lines 208-392):
same setup as `registerRoutes`, then the metadata walk; on success the
routes are sorted by the method/path comparator (stable, modelled by
stable insertion sort) and the summary is assembled. -/
def inspectRoutes (tsx : Bool) (mwFiles : List MwFile) (tree : DirList)
    (routesDir : String) (opts : RegOptions) : InspResult :=
  let normPfx := stripTrailingSlashes opts.pfx
  let baseDir := "src/" ++ routesDir
  match loadMiddlewares mwFiles with
  | .error e => ⟨none, [], some (.mwLoad e)⟩
  | .ok mw =>
    match inspWalk ⟨normPfx, opts.strict, tsx⟩ mw ⟨⟨[], [], []⟩, []⟩ baseDir "" tree with
    | (st, some err) => ⟨none, st.regs.warnings, some (.walk err)⟩
    | (st, none) =>
      let avail := getAvailableMiddlewares mw
      ⟨some ⟨st.routes.insertionSort (fun a b => routeLe a b = true),
             avail.1, avail.2,
             st.routes.length, avail.2.length, avail.1.length,
             st.routes.foldl (fun acc r => bumpCount acc r.method) []⟩,
       st.regs.warnings, none⟩

/-! ### General walk lemmas -/

/-- A file entry that throws stops the walk at once with that error. -/
theorem regWalk_cons_error (ctx : WalkCtx) (mw : MwState) (st st' : WalkState)
    (curDir pfxPath : String) (e : DirEntry) (rest : DirList) (err : WalkError)
    (h : regWalkE ctx mw st curDir pfxPath e = (st', some err)) :
    regWalk ctx mw st curDir pfxPath (.cons e rest) = (st', some err) := by
  simp only [regWalk, h]

/-- A successful entry lets the walk continue on the rest. -/
theorem regWalk_cons_ok (ctx : WalkCtx) (mw : MwState) (st st' : WalkState)
    (curDir pfxPath : String) (e : DirEntry) (rest : DirList)
    (h : regWalkE ctx mw st curDir pfxPath e = (st', none)) :
    regWalk ctx mw st curDir pfxPath (.cons e rest) =
      regWalk ctx mw st' curDir pfxPath rest := by
  simp only [regWalk, h]
-- C3
/-- Claim C3: two route files resolving to the identical method and final
path but with different source extensions (one `.js`, one `.ts`) make
registration throw immediately when the second file is encountered — the
error names both files and the shared route — regardless of strict mode. -/
theorem c3_extension_conflict (ctx : WalkCtx) (mw : MwState) (st : WalkState)
    (curDir pfxPath fname : String) (mod : RouteModule) (m fileExt existing : String)
    (hm : parseMethodFile fname = some (m, fileExt))
    (hreg : List.lookup (m ++ ":" ++ mkRoutePath ctx.normPfx pfxPath) st.regs.fileRegistry
      = some existing)
    (hext : (extname existing = ".js" ∧ fileExt = "ts") ∨
            (extname existing = ".ts" ∧ fileExt = "js")) :
    processFile ctx mw st curDir pfxPath fname mod
      = (st, some (.extensionConflict existing (joinPath curDir fname) m
          (mkRoutePath ctx.normPfx pfxPath)))
    ∧ ∀ rest, regWalk ctx mw st curDir pfxPath (.cons (.file fname mod) rest)
        = (st, some (.extensionConflict existing (joinPath curDir fname) m
            (mkRoutePath ctx.normPfx pfxPath))) := by
  have hne : extname existing ≠ "." ++ fileExt := by
    rcases hext with ⟨h1, h2⟩ | ⟨h1, h2⟩ <;> subst h2 <;> rw [h1] <;> decide
  have hp : processFile ctx mw st curDir pfxPath fname mod
      = (st, some (.extensionConflict existing (joinPath curDir fname) m
          (mkRoutePath ctx.normPfx pfxPath))) := by
    simp only [processFile, hm, extConflictCheck, hreg, if_pos hne]
  exact ⟨hp, fun rest => regWalk_cons_error _ _ _ _ _ _ _ _ _ (by simpa [regWalkE] using hp)⟩

/-- Witness for C3 at a concrete input: `GET.ts` meeting a registered
`GET.js` for the same route `/p`. -/
theorem c3_witness :
    processFile ⟨"", false, true⟩ ⟨[], []⟩
      ⟨⟨[("get:/p", "src/routes/p/GET.js")], [("get:/p", "src/routes/p/GET.js")], []⟩, []⟩
      "src/routes/p" "/p" "GET.ts" ⟨some 0, none, .undefined⟩
      = (⟨⟨[("get:/p", "src/routes/p/GET.js")], [("get:/p", "src/routes/p/GET.js")], []⟩, []⟩,
         some (.extensionConflict "src/routes/p/GET.js" "src/routes/p/GET.ts" "get" "/p")) := by
  exact (c3_extension_conflict ⟨"", false, true⟩ ⟨[], []⟩
    ⟨⟨[("get:/p", "src/routes/p/GET.js")], [("get:/p", "src/routes/p/GET.js")], []⟩, []⟩
    "src/routes/p" "/p" "GET.ts" ⟨some 0, none, .undefined⟩ "get" "ts" "src/routes/p/GET.js"
    (by decide) (by decide) (Or.inl ⟨by decide, rfl⟩)).1

/-- Claim C7: a route module that exports neither `default` nor the named
`handler` fallback does not make registration fail at discovery time: the
route is registered with the substitute handler, and the missing-handler
error naming the file is raised only when that handler is invoked. -/
theorem c7_missing_handler_deferred (ctx : WalkCtx) (mw : MwState) (st : WalkState)
    (curDir pfxPath fname : String) (mwv : JSVal) (m fileExt : String)
    (names : List String) (chain : List Nat)
    (hm : parseMethodFile fname = some (m, fileExt))
    (hnoext : extConflictCheck st.regs.fileRegistry
      (m ++ ":" ++ mkRoutePath ctx.normPfx pfxPath) fileExt = none)
    (hfp : List.lookup (m ++ ":" ++ normalizeDynamic (mkRoutePath ctx.normPfx pfxPath))
      st.regs.routeRegistry = none)
    (hts : importCheck ctx.tsx (joinPath curDir fname) = none)
    (hdecl : middlewaresDecl ⟨none, none, mwv⟩ = .arr names)
    (hres : resolveMiddlewares mw names = .ok chain) :
    processFile ctx mw st curDir pfxPath fname ⟨none, none, mwv⟩
      = ({ regs := { routeRegistry := mapSetS st.regs.routeRegistry
                       (m ++ ":" ++ normalizeDynamic (mkRoutePath ctx.normPfx pfxPath))
                       (joinPath curDir fname),
                     fileRegistry := mapSetS st.regs.fileRegistry
                       (m ++ ":" ++ mkRoutePath ctx.normPfx pfxPath) (joinPath curDir fname),
                     warnings := st.regs.warnings },
           registered := st.registered ++
             [⟨m, mkRoutePath ctx.normPfx pfxPath, chain,
               .missingStub (joinPath curDir fname)⟩] }, none)
    ∧ invokeHandler (.missingStub (joinPath curDir fname))
        = .error ("No handler exported in " ++ joinPath curDir fname) := by
  refine ⟨?_, rfl⟩
  simp only [processFile, hm, hnoext, hfp, afterConflicts, hts, hdecl, hres, resolveHandler]

/-- Witness for C7 at a concrete input: `GET.js` exporting nothing. -/
theorem c7_witness :
    processFile ⟨"", false, true⟩ ⟨[], []⟩ ⟨⟨[], [], []⟩, []⟩
      "src/routes" "" "GET.js" ⟨none, none, .undefined⟩
      = (⟨⟨[("get:", "src/routes/GET.js")], [("get:", "src/routes/GET.js")], []⟩,
          [⟨"get", "", [], .missingStub "src/routes/GET.js"⟩]⟩, none)
    ∧ invokeHandler (.missingStub "src/routes/GET.js")
        = .error ("No handler exported in " ++ "src/routes/GET.js") := by
  exact c7_missing_handler_deferred ⟨"", false, true⟩ ⟨[], []⟩ ⟨⟨[], [], []⟩, []⟩
    "src/routes" "" "GET.js" .undefined "get" "js" [] []
    (by decide) (by decide) (by decide) (by decide) (by decide) (by decide)

/-- Counterexample to C8 as stated: the module of `src/routes/GET.js`
exports `middlewares = false` — present and not an array — yet
registration succeeds (no invalid-middlewares error), because
`handlerModule.middlewares || []` turns every falsy export into the empty
array before the array check runs. -/
theorem c8_counterexample :
    registerRoutes true [] (.cons (.file "GET.js" ⟨some 0, none, .bool false⟩) .nil)
      "routes" ⟨"", false⟩
      = ⟨[⟨"get", "", [], .fn 0⟩], [], none⟩ := by decide

/-- Claim C8 (amended): a route module whose `middlewares` export is
present, truthy and not an array makes registration fail fatally with an
error naming the file and the `typeof` of the value found; falsy exports
(`null`, `false`, `0`, `""`) are treated as an absent declaration instead. -/
theorem c8_invalid_middlewares (ctx : WalkCtx) (mw : MwState) (st : WalkState)
    (curDir pfxPath fname : String) (de he : Option Nat) (v : JSVal) (m fileExt : String)
    (hm : parseMethodFile fname = some (m, fileExt))
    (hnoext : extConflictCheck st.regs.fileRegistry
      (m ++ ":" ++ mkRoutePath ctx.normPfx pfxPath) fileExt = none)
    (hfp : List.lookup (m ++ ":" ++ normalizeDynamic (mkRoutePath ctx.normPfx pfxPath))
      st.regs.routeRegistry = none)
    (hts : importCheck ctx.tsx (joinPath curDir fname) = none)
    (htr : truthy v = true)
    (harr : ∀ elems, v ≠ .arr elems) :
    processFile ctx mw st curDir pfxPath fname ⟨de, he, v⟩
      = ({ regs := { routeRegistry := mapSetS st.regs.routeRegistry
                       (m ++ ":" ++ normalizeDynamic (mkRoutePath ctx.normPfx pfxPath))
                       (joinPath curDir fname),
                     fileRegistry := mapSetS st.regs.fileRegistry
                       (m ++ ":" ++ mkRoutePath ctx.normPfx pfxPath) (joinPath curDir fname),
                     warnings := st.regs.warnings },
           registered := st.registered },
         some (.invalidMiddlewares (joinPath curDir fname) (typeName v))) := by
  have hdecl : middlewaresDecl ⟨de, he, v⟩ = v := by
    simp only [middlewaresDecl, htr, if_pos]
  simp only [processFile, hm, hnoext, hfp, afterConflicts, hts, hdecl]

/-- Witness for the amended C8 at a concrete input:
`middlewares = "checkAuth"` (a truthy string). -/
theorem c8_witness :
    processFile ⟨"", false, true⟩ ⟨[], []⟩ ⟨⟨[], [], []⟩, []⟩
      "src/routes" "" "GET.js" ⟨some 0, none, .str "checkAuth"⟩
      = (⟨⟨[("get:", "src/routes/GET.js")], [("get:", "src/routes/GET.js")], []⟩, []⟩,
         some (.invalidMiddlewares "src/routes/GET.js" "string")) := by
  exact c8_invalid_middlewares ⟨"", false, true⟩ ⟨[], []⟩ ⟨⟨[], [], []⟩, []⟩
    "src/routes" "" "GET.js" (some 0) none (.str "checkAuth") "get" "js"
    (by decide) (by decide) (by decide) (by decide) (by decide)
    (fun elems h => by cases h)

/-- The resolve loop fails at the first requested name missing from the
catalog, reporting that name and every known name. -/
theorem resolveLoop_first_missing (mw : MwState) :
    ∀ (l : List String) (acc : List Nat),
      (∃ n, n ∈ l ∧ List.lookup n mw.middlewareCache = none) →
      ∃ n, n ∈ l ∧ List.lookup n mw.middlewareCache = none ∧
        resolveLoop mw acc l = .error (.notFound n (mw.middlewareCache.map Prod.fst)) := by
  intro l
  induction l with
  | nil => rintro acc ⟨n, hn, _⟩; cases hn
  | cons a rest ih =>
    rintro acc ⟨n, hn, hmiss⟩
    by_cases ha : List.lookup a mw.middlewareCache = none
    · exact ⟨a, List.mem_cons_self a rest, ha, by simp only [resolveLoop, ha]⟩
    · obtain ⟨f, hf⟩ : ∃ f, List.lookup a mw.middlewareCache = some f := by
        cases h : List.lookup a mw.middlewareCache with
        | none => exact absurd h ha
        | some f => exact ⟨f, rfl⟩
      have hnr : n ∈ rest := by
        rcases List.mem_cons.mp hn with h | h
        · rw [h] at hmiss; exact absurd hmiss ha
        · exact h
      obtain ⟨n', h1, h2, h3⟩ := ih (acc ++ [f]) ⟨n, hnr, hmiss⟩
      refine ⟨n', List.mem_cons_of_mem a h1, h2, ?_⟩
      simp only [resolveLoop, hf]
      exact h3

/-- Claim C9: a route declaring a middleware name absent from the catalog
makes middleware resolution fail fatally with an error that names the
missing middleware and enumerates all currently known middleware names. -/
theorem c9_middleware_not_found (mw : MwState) (ms : List String)
    (hmiss : ∃ n, n ∈ ms ∧ n ≠ "!_global" ∧ List.lookup n mw.middlewareCache = none) :
    ∃ n, n ∈ ms ∧ n ≠ "!_global" ∧ List.lookup n mw.middlewareCache = none ∧
      resolveMiddlewares mw ms
        = .error (.notFound n (mw.middlewareCache.map Prod.fst)) := by
  obtain ⟨n, hn, hskip, hmiss⟩ := hmiss
  have hne : ms.isEmpty = false := by cases ms with | nil => cases hn | cons a l => rfl
  have hreq : n ∈ ms.filter (fun x => x != "!_global") := by
    rw [List.mem_filter]
    exact ⟨hn, by simpa using hskip⟩
  obtain ⟨n', h1, h2, h3⟩ := resolveLoop_first_missing mw
    (ms.filter (fun x => x != "!_global"))
    (if ms.contains "!_global" then [] else mw.globalMiddlewares.map MwEntry.fn)
    ⟨n, hreq, hmiss⟩
  have h1' := List.mem_filter.mp h1
  refine ⟨n', h1'.1, by simpa using h1'.2, h2, ?_⟩
  simp only [resolveMiddlewares, hne]
  exact h3

/-- Witness for C9 at a concrete input: declaring `nope` against a catalog
that only knows `checkAuth` and `cors`. -/
theorem c9_witness :
    ∃ n, n ∈ ["nope"] ∧ n ≠ "!_global" ∧
      List.lookup n (⟨[("checkAuth", 3), ("cors", 1)], []⟩ : MwState).middlewareCache = none ∧
      resolveMiddlewares ⟨[("checkAuth", 3), ("cors", 1)], []⟩ ["nope"]
        = .error (.notFound n ["checkAuth", "cors"]) := by
  exact c9_middleware_not_found ⟨[("checkAuth", 3), ("cors", 1)], []⟩ ["nope"]
    ⟨"nope", by decide, by decide, by decide⟩

/-- Claim C10: for a route module exporting neither `default` nor the
named `handler` fallback, introspection raises no missing-handler error:
the route is included in the report with its handler-export field set to
the fallback value `"handler"`. -/
theorem c10_inspect_missing_handler (ctx : WalkCtx) (mw : MwState) (st : InspState)
    (curDir pfxPath fname : String) (mwv : JSVal) (m fileExt : String)
    (names : List String) (chain : List Nat)
    (hm : parseMethodFile fname = some (m, fileExt))
    (hnoext : extConflictCheck st.regs.fileRegistry
      (m ++ ":" ++ mkRoutePath ctx.normPfx pfxPath) fileExt = none)
    (hfp : List.lookup (m ++ ":" ++ normalizeDynamic (mkRoutePath ctx.normPfx pfxPath))
      st.regs.routeRegistry = none)
    (hts : importCheck ctx.tsx (joinPath curDir fname) = none)
    (hdecl : middlewaresDecl ⟨none, none, mwv⟩ = .arr names)
    (hres : resolveMiddlewares mw names = .ok chain) :
    inspProcessFile ctx mw st curDir pfxPath fname ⟨none, none, mwv⟩
      = ({ regs := { routeRegistry := mapSetS st.regs.routeRegistry
                       (m ++ ":" ++ normalizeDynamic (mkRoutePath ctx.normPfx pfxPath))
                       (joinPath curDir fname),
                     fileRegistry := mapSetS st.regs.fileRegistry
                       (m ++ ":" ++ mkRoutePath ctx.normPfx pfxPath) (joinPath curDir fname),
                     warnings := st.regs.warnings },
           routes := st.routes ++
             [⟨upperStr m, mkRoutePath ctx.normPfx pfxPath, joinPath curDir fname,
               if fileExt == "ts" then "TypeScript" else "JavaScript",
               inspMwNames mw names, "handler"⟩] }, none) := by
  simp only [inspProcessFile, hm, hnoext, hfp, inspAfterConflicts, hts, hdecl, hres,
    Option.isSome_none, Bool.false_eq_true, if_false]

/-- Witness for C10 at a concrete input: inspecting `GET.js` with no
handler exports yields the route with the `"handler"` fallback marker. -/
theorem c10_witness :
    inspProcessFile ⟨"", false, true⟩ ⟨[], []⟩ ⟨⟨[], [], []⟩, []⟩
      "src/routes" "" "GET.js" ⟨none, none, .undefined⟩
      = (⟨⟨[("get:", "src/routes/GET.js")], [("get:", "src/routes/GET.js")], []⟩,
          [⟨"GET", "", "src/routes/GET.js", "JavaScript", [], "handler"⟩]⟩, none) := by
  exact c10_inspect_missing_handler ⟨"", false, true⟩ ⟨[], []⟩ ⟨⟨[], [], []⟩, []⟩
    "src/routes" "" "GET.js" .undefined "get" "js" [] []
    (by decide) (by decide) (by decide) (by decide) (by decide) (by decide)

/-- Whatever happens after the conflict checks, the fingerprint registry
and the warning list are not touched again for this file. -/
theorem afterConflicts_preserves (ctx : WalkCtx) (mw : MwState) (st : WalkState)
    (fullPath m routePath sig : String) (mod : RouteModule) :
    (afterConflicts ctx mw st fullPath m routePath sig mod).1.regs.routeRegistry
      = st.regs.routeRegistry
    ∧ (afterConflicts ctx mw st fullPath m routePath sig mod).1.regs.warnings
      = st.regs.warnings := by
  refine ⟨?_, ?_⟩ <;>
    (unfold afterConflicts
     split
     · rfl
     · split
       · split
         · rfl
         · rfl
       · rfl)

/-- Claim C2: two route files with the same method and wildcard-normalized
fingerprint but distinct files: with `strict = true` registration throws
the dynamic-conflict error at once and processes no further file; with
`strict = false` it records a warning and the fingerprint registry keeps
the first-registered file (the later file does not override it). -/
theorem c2_dynamic_conflict (ctx : WalkCtx) (mw : MwState) (st : WalkState)
    (curDir pfxPath fname : String) (mod : RouteModule) (m fileExt prev : String)
    (hm : parseMethodFile fname = some (m, fileExt))
    (hnoext : extConflictCheck st.regs.fileRegistry
      (m ++ ":" ++ mkRoutePath ctx.normPfx pfxPath) fileExt = none)
    (hfp : List.lookup (m ++ ":" ++ normalizeDynamic (mkRoutePath ctx.normPfx pfxPath))
      st.regs.routeRegistry = some prev) :
    (ctx.strict = true →
      processFile ctx mw st curDir pfxPath fname mod
        = (st, some (.dynamicConflict prev (joinPath curDir fname) m
            (mkRoutePath ctx.normPfx pfxPath)))
      ∧ ∀ rest, regWalk ctx mw st curDir pfxPath (.cons (.file fname mod) rest)
          = (st, some (.dynamicConflict prev (joinPath curDir fname) m
              (mkRoutePath ctx.normPfx pfxPath))))
    ∧ (ctx.strict = false →
      List.lookup (m ++ ":" ++ normalizeDynamic (mkRoutePath ctx.normPfx pfxPath))
        (processFile ctx mw st curDir pfxPath fname mod).1.regs.routeRegistry = some prev
      ∧ (processFile ctx mw st curDir pfxPath fname mod).1.regs.warnings
          = st.regs.warnings ++
            [⟨prev, joinPath curDir fname, m, mkRoutePath ctx.normPfx pfxPath⟩]) := by
  constructor
  · intro hstrict
    have hp : processFile ctx mw st curDir pfxPath fname mod
        = (st, some (.dynamicConflict prev (joinPath curDir fname) m
            (mkRoutePath ctx.normPfx pfxPath))) := by
      simp only [processFile, hm, hnoext, hfp, hstrict, if_true]
    exact ⟨hp, fun rest => regWalk_cons_error _ _ _ _ _ _ _ _ _ (by simpa [regWalkE] using hp)⟩
  · intro hstrict
    have hred : processFile ctx mw st curDir pfxPath fname mod
        = afterConflicts ctx mw
            { st with regs := { st.regs with warnings := st.regs.warnings ++
                [⟨prev, joinPath curDir fname, m, mkRoutePath ctx.normPfx pfxPath⟩] } }
            (joinPath curDir fname) m (mkRoutePath ctx.normPfx pfxPath)
            (m ++ ":" ++ mkRoutePath ctx.normPfx pfxPath) mod := by
      simp only [processFile, hm, hnoext, hfp, hstrict, Bool.false_eq_true, if_false]
    rw [hred]
    obtain ⟨h1, h2⟩ := afterConflicts_preserves ctx mw
      { st with regs := { st.regs with warnings := st.regs.warnings ++
          [⟨prev, joinPath curDir fname, m, mkRoutePath ctx.normPfx pfxPath⟩] } }
      (joinPath curDir fname) m (mkRoutePath ctx.normPfx pfxPath)
      (m ++ ":" ++ mkRoutePath ctx.normPfx pfxPath) mod
    rw [h1, h2]
    exact ⟨hfp, rfl⟩

/-- The walk state after registering `src/routes/p/[id]/GET.js`, used by
the C2 witness: the second file `src/routes/p/[slug]/GET.js` has the same
fingerprint `get:/p/:param` from a distinct file. -/
def c2St : WalkState :=
  ⟨⟨[("get:/p/:param", "src/routes/p/[id]/GET.js")],
    [("get:/p/:id", "src/routes/p/[id]/GET.js")], []⟩,
   [⟨"get", "/p/:id", [], .fn 0⟩]⟩

/-- Witness for C2 at a concrete input: `[slug]` colliding with `[id]`,
in strict mode (fatal) and in non-strict mode (first file kept). -/
theorem c2_witness :
    (processFile ⟨"", true, true⟩ ⟨[], []⟩ c2St "src/routes/p/[slug]" "/p/[slug]"
        "GET.js" ⟨some 0, none, .undefined⟩
      = (c2St, some (.dynamicConflict "src/routes/p/[id]/GET.js"
          "src/routes/p/[slug]/GET.js" "get" "/p/:slug")))
    ∧ List.lookup "get:/p/:param"
        (processFile ⟨"", false, true⟩ ⟨[], []⟩ c2St "src/routes/p/[slug]" "/p/[slug]"
          "GET.js" ⟨some 0, none, .undefined⟩).1.regs.routeRegistry
        = some "src/routes/p/[id]/GET.js" := by
  constructor
  · exact ((c2_dynamic_conflict ⟨"", true, true⟩ ⟨[], []⟩ c2St "src/routes/p/[slug]"
      "/p/[slug]" "GET.js" ⟨some 0, none, .undefined⟩ "get" "js"
      "src/routes/p/[id]/GET.js" (by decide) (by decide) (by decide)).1 rfl).1
  · exact ((c2_dynamic_conflict ⟨"", false, true⟩ ⟨[], []⟩ c2St "src/routes/p/[slug]"
      "/p/[slug]" "GET.js" ⟨some 0, none, .undefined⟩ "get" "js"
      "src/routes/p/[id]/GET.js" (by decide) (by decide) (by decide)).2 rfl).1

/-- Every tree entry accounts for at least one node. -/
theorem entrySize_pos (e : DirEntry) : 1 ≤ entrySize e := by
  cases e with
  | dir name children => simp [entrySize]
  | file name mod => simp [entrySize]

/-- `afterConflicts` only ever appends to the registered-routes list. -/
theorem afterConflicts_registered (ctx : WalkCtx) (mw : MwState) (st : WalkState)
    (fullPath m routePath sig : String) (mod : RouteModule) :
    ∃ t, (afterConflicts ctx mw st fullPath m routePath sig mod).1.registered
      = st.registered ++ t := by
  unfold afterConflicts
  repeat' split
  all_goals
    first
      | exact ⟨[], (List.append_nil _).symm⟩
      | exact ⟨_, rfl⟩

/-- `processFile` only ever appends to the registered-routes list. -/
theorem processFile_registered (ctx : WalkCtx) (mw : MwState) (st : WalkState)
    (curDir pfxPath fname : String) (mod : RouteModule) :
    ∃ t, (processFile ctx mw st curDir pfxPath fname mod).1.registered
      = st.registered ++ t := by
  cases hp : parseMethodFile fname with
  | none => exact ⟨[], by simp [processFile, hp]⟩
  | some v =>
    obtain ⟨m, fileExt⟩ := v
    cases hec : extConflictCheck st.regs.fileRegistry
        (m ++ ":" ++ mkRoutePath ctx.normPfx pfxPath) fileExt with
    | some existing => exact ⟨[], by simp [processFile, hp, hec]⟩
    | none =>
      cases hfp : List.lookup (m ++ ":" ++ normalizeDynamic (mkRoutePath ctx.normPfx pfxPath))
          st.regs.routeRegistry with
      | some prev =>
        cases hstrict : ctx.strict with
        | true => exact ⟨[], by simp [processFile, hp, hec, hfp, hstrict]⟩
        | false =>
          have hred : processFile ctx mw st curDir pfxPath fname mod
              = afterConflicts ctx mw
                  { st with regs := { st.regs with warnings := st.regs.warnings ++
                      [⟨prev, joinPath curDir fname, m, mkRoutePath ctx.normPfx pfxPath⟩] } }
                  (joinPath curDir fname) m (mkRoutePath ctx.normPfx pfxPath)
                  (m ++ ":" ++ mkRoutePath ctx.normPfx pfxPath) mod := by
            simp only [processFile, hp, hec, hfp, hstrict, Bool.false_eq_true, if_false]
          rw [hred]
          exact afterConflicts_registered _ _ _ _ _ _ _ _
      | none =>
        have hred : processFile ctx mw st curDir pfxPath fname mod
            = afterConflicts ctx mw
                { st with regs := { st.regs with routeRegistry :=
                    (mapSetS st.regs.routeRegistry
                      (m ++ ":" ++ normalizeDynamic (mkRoutePath ctx.normPfx pfxPath))
                      (joinPath curDir fname)) } }
                (joinPath curDir fname) m (mkRoutePath ctx.normPfx pfxPath)
                (m ++ ":" ++ mkRoutePath ctx.normPfx pfxPath) mod := by
          simp only [processFile, hp, hec, hfp]
        rw [hred]
        exact afterConflicts_registered _ _ _ _ _ _ _ _

/-- The whole walk only ever appends to the registered-routes list,
whether or not it ends in an error. -/
theorem regWalk_registered (n : Nat) : ∀ (l : DirList), listSize l ≤ n →
    ∀ (ctx : WalkCtx) (mw : MwState) (st : WalkState) (curDir pfxPath : String),
    ∃ t, (regWalk ctx mw st curDir pfxPath l).1.registered = st.registered ++ t := by
  induction n with
  | zero =>
    intro l hl ctx mw st curDir pfxPath
    cases l with
    | nil => exact ⟨[], by simp [regWalk]⟩
    | cons e rest =>
      exfalso
      have := entrySize_pos e
      simp [listSize] at hl
      omega
  | succ n ih =>
    intro l hl ctx mw st curDir pfxPath
    cases l with
    | nil => exact ⟨[], by simp [regWalk]⟩
    | cons e rest =>
      have hre : 1 ≤ entrySize e := entrySize_pos e
      have hsz : listSize (DirList.cons e rest) = entrySize e + listSize rest := rfl
      cases e with
      | file name mod =>
        rcases hw : processFile ctx mw st curDir pfxPath name mod with ⟨st', err⟩
        obtain ⟨t1, ht1⟩ := processFile_registered ctx mw st curDir pfxPath name mod
        rw [hw] at ht1
        cases err with
        | none =>
          obtain ⟨t2, ht2⟩ := ih rest (by simp [listSize, entrySize] at hl ⊢; omega)
            ctx mw st' curDir pfxPath
          refine ⟨t1 ++ t2, ?_⟩
          have : regWalk ctx mw st curDir pfxPath (.cons (.file name mod) rest)
              = regWalk ctx mw st' curDir pfxPath rest := by
            simp only [regWalk, regWalkE, hw]
          rw [this, ht2, ht1, List.append_assoc]
        | some err =>
          refine ⟨t1, ?_⟩
          have : regWalk ctx mw st curDir pfxPath (.cons (.file name mod) rest)
              = (st', some err) := by
            simp only [regWalk, regWalkE, hw]
          rw [this]
          exact ht1
      | dir name children =>
        rcases hw : regWalk ctx mw st (joinPath curDir name) (pfxPath ++ "/" ++ name)
          children with ⟨st', err⟩
        obtain ⟨t1, ht1⟩ := ih children
          (by simp [listSize, entrySize] at hl ⊢; omega)
          ctx mw st (joinPath curDir name) (pfxPath ++ "/" ++ name)
        rw [hw] at ht1
        cases err with
        | none =>
          obtain ⟨t2, ht2⟩ := ih rest (by simp [listSize, entrySize] at hl ⊢; omega)
            ctx mw st' curDir pfxPath
          refine ⟨t1 ++ t2, ?_⟩
          have : regWalk ctx mw st curDir pfxPath (.cons (.dir name children) rest)
              = regWalk ctx mw st' curDir pfxPath rest := by
            simp only [regWalk, regWalkE, hw]
          rw [this, ht2, ht1, List.append_assoc]
        | some err =>
          refine ⟨t1, ?_⟩
          have : regWalk ctx mw st curDir pfxPath (.cons (.dir name children) rest)
              = (st', some err) := by
            simp only [regWalk, regWalkE, hw]
          rw [this]
          exact ht1

/-- Walking a successfully processed chunk first, then the rest, composes
(size-indexed for induction over the mutual tree type). -/
theorem regWalk_append_ok_aux (n : Nat) : ∀ (l : DirList), listSize l ≤ n →
    ∀ (ctx : WalkCtx) (mw : MwState) (curDir pfxPath : String) (st st1 : WalkState),
    regWalk ctx mw st curDir pfxPath l = (st1, none) →
    ∀ l2, regWalk ctx mw st curDir pfxPath (DirList.append l l2)
      = regWalk ctx mw st1 curDir pfxPath l2 := by
  induction n with
  | zero =>
    intro l hl ctx mw curDir pfxPath st st1 h l2
    cases l with
    | nil =>
      have h1 : st = st1 := congrArg Prod.fst h
      rw [← h1]
      rfl
    | cons e rest =>
      exfalso
      have := entrySize_pos e
      simp [listSize] at hl
      omega
  | succ n ih =>
    intro l hl ctx mw curDir pfxPath st st1 h l2
    cases l with
    | nil =>
      have h1 : st = st1 := congrArg Prod.fst h
      rw [← h1]
      rfl
    | cons e rest =>
      have hre := entrySize_pos e
      rcases hr : regWalkE ctx mw st curDir pfxPath e with ⟨st', err⟩
      cases err with
      | none =>
        have hrest : regWalk ctx mw st' curDir pfxPath rest = (st1, none) := by
          rw [← h]; simp only [regWalk, hr]
        have hstep : DirList.append (DirList.cons e rest) l2
            = DirList.cons e (DirList.append rest l2) := rfl
        rw [hstep]
        rw [regWalk_cons_ok ctx mw st st' curDir pfxPath e _ hr]
        exact ih rest (by simp [listSize] at hl ⊢; omega) ctx mw curDir pfxPath st' st1 hrest l2
      | some err =>
        exfalso
        have hbad : regWalk ctx mw st curDir pfxPath (DirList.cons e rest) = (st', some err) := by
          simp only [regWalk, hr]
        rw [h] at hbad
        exact Option.noConfusion (congrArg Prod.snd hbad)

/-- Walking a successfully processed chunk first, then the rest, composes. -/
theorem regWalk_append_ok (ctx : WalkCtx) (mw : MwState) (curDir pfxPath : String)
    (l : DirList) (st st1 : WalkState)
    (h : regWalk ctx mw st curDir pfxPath l = (st1, none)) (l2 : DirList) :
    regWalk ctx mw st curDir pfxPath (DirList.append l l2)
      = regWalk ctx mw st1 curDir pfxPath l2 :=
  regWalk_append_ok_aux (listSize l) l (le_refl _) ctx mw curDir pfxPath st st1 h l2

/-- Claim C6: no rollback — if a later file fails after earlier files were
registered, the walk stops with the error, and every route registered
before the failure is still registered on the host application. -/
theorem c6_no_rollback (ctx : WalkCtx) (mw : MwState) (curDir pfxPath : String)
    (es : DirList) (e : DirEntry) (rest : DirList) (st st1 st2 : WalkState) (err : WalkError)
    (hok : regWalk ctx mw st curDir pfxPath es = (st1, none))
    (herr : regWalk ctx mw st1 curDir pfxPath (.cons e .nil) = (st2, some err)) :
    regWalk ctx mw st curDir pfxPath (DirList.append es (.cons e rest)) = (st2, some err)
    ∧ ∀ r ∈ st1.registered, r ∈ st2.registered := by
  have hE : regWalkE ctx mw st1 curDir pfxPath e = (st2, some err) := by
    rcases hr : regWalkE ctx mw st1 curDir pfxPath e with ⟨st', err'⟩
    cases err' with
    | none =>
      exfalso
      have : regWalk ctx mw st1 curDir pfxPath (.cons e .nil) = (st', none) := by
        simp only [regWalk, hr]
      rw [herr] at this
      exact Option.noConfusion (congrArg Prod.snd this)
    | some e' =>
      have : regWalk ctx mw st1 curDir pfxPath (.cons e .nil) = (st', some e') := by
        simp only [regWalk, hr]
      rw [herr] at this
      have h1 := congrArg Prod.fst this
      have h2 := congrArg Prod.snd this
      simp at h1 h2
      rw [h1, h2]
  constructor
  · rw [regWalk_append_ok ctx mw curDir pfxPath es st st1 hok]
    exact regWalk_cons_error ctx mw st1 st2 curDir pfxPath e rest err hE
  · obtain ⟨t, ht⟩ := regWalk_registered (listSize (DirList.cons e .nil))
      (DirList.cons e .nil) (le_refl _) ctx mw st1 curDir pfxPath
    rw [herr] at ht
    intro r hr
    rw [ht]
    exact List.mem_append_left t hr

/-- Witness for C6 at a concrete input: `GET.js` registers, then
`POST.js` fails its middleware validation; the earlier route stays
registered while the error propagates. -/
theorem c6_witness :
    regWalk ⟨"", false, true⟩ ⟨[], []⟩ ⟨⟨[], [], []⟩, []⟩ "src/routes" ""
      (DirList.append (.cons (.file "GET.js" ⟨some 0, none, .undefined⟩) .nil)
        (.cons (.file "POST.js" ⟨some 1, none, .str "oops"⟩) .nil))
      = (⟨⟨[("get:", "src/routes/GET.js"), ("post:", "src/routes/POST.js")],
           [("get:", "src/routes/GET.js"), ("post:", "src/routes/POST.js")], []⟩,
          [⟨"get", "", [], .fn 0⟩]⟩,
         some (.invalidMiddlewares "src/routes/POST.js" "string"))
    ∧ ∀ r ∈ [(⟨"get", "", [], .fn 0⟩ : RegisteredRoute)],
        r ∈ (⟨⟨[("get:", "src/routes/GET.js"), ("post:", "src/routes/POST.js")],
               [("get:", "src/routes/GET.js"), ("post:", "src/routes/POST.js")], []⟩,
              [⟨"get", "", [], .fn 0⟩]⟩ : WalkState).registered := by
  have h := c6_no_rollback ⟨"", false, true⟩ ⟨[], []⟩ "src/routes" ""
    (.cons (.file "GET.js" ⟨some 0, none, .undefined⟩) .nil)
    (.file "POST.js" ⟨some 1, none, .str "oops"⟩) .nil
    ⟨⟨[], [], []⟩, []⟩
    ⟨⟨[("get:", "src/routes/GET.js")], [("get:", "src/routes/GET.js")], []⟩,
     [⟨"get", "", [], .fn 0⟩]⟩
    ⟨⟨[("get:", "src/routes/GET.js"), ("post:", "src/routes/POST.js")],
      [("get:", "src/routes/GET.js"), ("post:", "src/routes/POST.js")], []⟩,
     [⟨"get", "", [], .fn 0⟩]⟩
    (.invalidMiddlewares "src/routes/POST.js" "string")
    (by decide) (by decide)
  exact ⟨h.1, h.2⟩

/-! ### Ordering lemmas for the middleware sort (C1) -/

/-- Characters with equal code points are equal. -/
theorem charToNat_inj {a b : Char} (h : a.toNat = b.toNat) : a = b := by
  apply Char.ext
  exact UInt32.ext (by simpa [Char.toNat] using h)

/-- The lexicographic comparison is total. -/
theorem lexLeChars_total : ∀ a b : List Char, lexLeChars a b = true ∨ lexLeChars b a = true := by
  intro a
  induction a with
  | nil => intro b; left; rfl
  | cons x xs ih =>
    intro b
    cases b with
    | nil => right; rfl
    | cons y ys =>
      by_cases hxy : x = y
      · subst hxy
        rcases ih ys with h | h
        · left; simpa [lexLeChars] using h
        · right; simpa [lexLeChars] using h
      · have hyx : y ≠ x := fun h => hxy h.symm
        rcases Nat.lt_or_ge x.toNat y.toNat with h | h
        · left; simp [lexLeChars, hxy, h]
        · have hlt : y.toNat < x.toNat := by
            rcases Nat.lt_or_ge y.toNat x.toNat with h2 | h2
            · exact h2
            · exact absurd (charToNat_inj (Nat.le_antisymm h2 h)) hxy
          right; simp [lexLeChars, hyx, hlt]

/-- The lexicographic comparison is transitive. -/
theorem lexLeChars_trans : ∀ a b c : List Char,
    lexLeChars a b = true → lexLeChars b c = true → lexLeChars a c = true := by
  intro a
  induction a with
  | nil => intro b c _ _; rfl
  | cons x xs ih =>
    intro b c hab hbc
    cases b with
    | nil => exact absurd hab (by simp [lexLeChars])
    | cons y ys =>
      cases c with
      | nil => exact absurd hbc (by simp [lexLeChars])
      | cons z zs =>
        simp only [lexLeChars] at hab hbc ⊢
        by_cases hxy : x = y
        · by_cases hyz : y = z
          · rw [if_pos hxy] at hab
            rw [if_pos hyz] at hbc
            rw [if_pos (hxy.trans hyz)]
            exact ih ys zs hab hbc
          · rw [if_pos hxy] at hab
            rw [if_neg hyz] at hbc
            have hyzn : y.toNat < z.toNat := of_decide_eq_true hbc
            have hxzn : x.toNat < z.toNat := by rw [hxy]; exact hyzn
            have hxz : x ≠ z := fun h => absurd (congrArg Char.toNat h) (Nat.ne_of_lt hxzn)
            rw [if_neg hxz]
            exact decide_eq_true hxzn
        · rw [if_neg hxy] at hab
          have hxyn : x.toNat < y.toNat := of_decide_eq_true hab
          by_cases hyz : y = z
          · have hxzn : x.toNat < z.toNat := by rw [← hyz]; exact hxyn
            have hxz : x ≠ z := fun h => absurd (congrArg Char.toNat h) (Nat.ne_of_lt hxzn)
            rw [if_neg hxz]
            exact decide_eq_true hxzn
          · rw [if_neg hyz] at hbc
            have hyzn : y.toNat < z.toNat := of_decide_eq_true hbc
            have hxzn : x.toNat < z.toNat := Nat.lt_trans hxyn hyzn
            have hxz : x ≠ z := fun h => absurd (congrArg Char.toNat h) (Nat.ne_of_lt hxzn)
            rw [if_neg hxz]
            exact decide_eq_true hxzn

/-- Totality of the name order on global-middleware entries. -/
instance : IsTotal MwEntry (fun a b => strLe a.name b.name = true) :=
  ⟨fun a b => lexLeChars_total a.name.toList b.name.toList⟩

/-- Transitivity of the name order on global-middleware entries. -/
instance : IsTrans MwEntry (fun a b => strLe a.name b.name = true) :=
  ⟨fun a b c => lexLeChars_trans a.name.toList b.name.toList c.name.toList⟩

/-- Decidability of the name order on global-middleware entries. -/
instance : DecidableRel (fun a b : MwEntry => strLe a.name b.name = true) :=
  fun a b => inferInstanceAs (Decidable (strLe a.name b.name = true))

/-- After `loadMiddlewares`, the global list is sorted by name. -/
theorem loadMiddlewares_globals_sorted (files : List MwFile) (st : MwState)
    (h : loadMiddlewares files = .ok st) :
    (st.globalMiddlewares.map MwEntry.name).Pairwise (fun a b => strLe a b = true) := by
  unfold loadMiddlewares at h
  cases hf : files.foldlM loadStep ⟨[], []⟩ with
  | error e => rw [hf] at h; cases h
  | ok st0 =>
    rw [hf] at h
    injection h with h
    subst h
    have hs := List.sorted_insertionSort (fun a b : MwEntry => strLe a.name b.name = true)
      st0.globalMiddlewares
    exact List.Pairwise.map MwEntry.name (fun a b hab => hab) hs

/-- When every requested name is in the catalog, the resolve loop returns
the accumulator followed by the looked-up callables in declared order. -/
theorem resolveLoop_ok (mw : MwState) : ∀ (l : List String) (acc : List Nat),
    (∀ n ∈ l, (List.lookup n mw.middlewareCache).isSome = true) →
    resolveLoop mw acc l
      = .ok (acc ++ l.map (fun n => (List.lookup n mw.middlewareCache).getD 0)) := by
  intro l
  induction l with
  | nil => intro acc h; simp [resolveLoop]
  | cons a rest ih =>
    intro acc h
    have ha := h a (List.mem_cons_self a rest)
    cases hl : List.lookup a mw.middlewareCache with
    | none => rw [hl] at ha; cases ha
    | some f =>
      simp only [resolveLoop, hl]
      rw [ih (acc ++ [f]) (fun n hn => h n (List.mem_cons_of_mem a hn))]
      simp [hl]

/-- Claim C1: for a route whose declared middleware list resolves, the
chain is exactly the global callables in name-sorted order (omitted when
the list contains the skip marker `"!_global"`), followed by the catalog
callables of the declared names (marker removed) in declared order; an
empty or omitted list yields exactly the sorted global callables. -/
theorem c1_resolve_chain (files : List MwFile) (st : MwState)
    (hld : loadMiddlewares files = .ok st) (ms : List String)
    (hall : ∀ n ∈ ms, n ≠ "!_global" → (List.lookup n st.middlewareCache).isSome = true) :
    (st.globalMiddlewares.map MwEntry.name).Pairwise (fun a b => strLe a b = true)
    ∧ resolveMiddlewares st ms = .ok
        ((if ms.contains "!_global" then [] else st.globalMiddlewares.map MwEntry.fn)
          ++ (ms.filter (fun n => n != "!_global")).map
               (fun n => (List.lookup n st.middlewareCache).getD 0)) := by
  refine ⟨loadMiddlewares_globals_sorted files st hld, ?_⟩
  cases hms : ms.isEmpty with
  | true =>
    have hnil : ms = [] := List.isEmpty_iff.mp hms
    subst hnil
    simp [resolveMiddlewares]
  | false =>
    simp only [resolveMiddlewares, hms, Bool.false_eq_true, if_false]
    exact resolveLoop_ok st _ _
      (fun n hn => hall n (List.mem_filter.mp hn).1 (by simpa using (List.mem_filter.mp hn).2))

/-- The middleware files of the C1 witness. -/
def c1Files : List MwFile :=
  [⟨"logIP._global.js", some 2, none⟩, ⟨"cors._global.js", some 1, none⟩,
   ⟨"checkAuth.js", some 3, none⟩]

/-- The catalog state `loadMiddlewares` produces for `c1Files`. -/
def c1St : MwState :=
  ⟨[("logIP", 2), ("cors", 1), ("checkAuth", 3)], [⟨"cors", 1⟩, ⟨"logIP", 2⟩]⟩

/-- Witness for C1 at a concrete input: globals `cors`, `logIP` and a
route declaring `["checkAuth"]`. -/
theorem c1_witness :
    (c1St.globalMiddlewares.map MwEntry.name).Pairwise (fun a b => strLe a b = true)
    ∧ resolveMiddlewares c1St ["checkAuth"] = .ok
        ((if List.contains ["checkAuth"] "!_global" then []
          else c1St.globalMiddlewares.map MwEntry.fn)
          ++ (List.filter (fun n => n != "!_global") ["checkAuth"]).map
               (fun n => (List.lookup n c1St.middlewareCache).getD 0)) := by
  exact c1_resolve_chain c1Files c1St (by decide) ["checkAuth"] (by decide)

/-! ### Path construction (C4) -/

/-- `(a ++ b).toList` splits into the two character lists. -/
theorem toList_append (a b : String) : (a ++ b).toList = a.toList ++ b.toList :=
  String.data_append a b

/-- Modelled from the spec (claim C4): the per-folder substitution rule —
a folder literally named `[x]` becomes the URL segment `:x`; any other
folder name passes through unchanged. The side conditions state the
well-formedness the spec assumes of folder names: a parameter name is
non-empty and bracket-free, a plain folder name contains no `[`. -/
inductive SpecSeg : String → String → Prop where
  | plain (d : String) (h : ∀ c ∈ d.toList, c ≠ '[') : SpecSeg d d
  | param (x : String) (hne : x.toList ≠ [])
      (hx : ∀ c ∈ x.toList, c ≠ '[' ∧ c ≠ ']') :
      SpecSeg ("[" ++ x ++ "]") (":" ++ x)

/-- The character string `/s₁/s₂…/sₙ` of a segment list. -/
def segsChars : List String → List Char
  | [] => []
  | d :: ds => '/' :: d.toList ++ segsChars ds

/-- The nested single-chain directory tree `d₁/d₂/…/dₙ/fname`. -/
def nestTree (fname : String) (mod : RouteModule) : List String → DirEntry
  | [] => .file fname mod
  | d :: ds => .dir d (.cons (nestTree fname mod ds) .nil)

/-- Bracket-free characters pass through the bracket substitution. -/
theorem replBr_none_passthrough : ∀ (l rest : List Char), (∀ c ∈ l, c ≠ '[') →
    replBrAux none (l ++ rest) = l ++ replBrAux none rest := by
  intro l
  induction l with
  | nil => intro rest h; rfl
  | cons c cs ih =>
    intro rest h
    have hc : c ≠ '[' := h c (List.mem_cons_self c cs)
    simp only [List.cons_append, replBrAux, if_neg hc, List.append_eq]
    rw [ih rest (fun d hd => h d (List.mem_cons_of_mem c hd))]

/-- Scanning a `]`-free chunk inside an open bracket accumulates it and
the closing `]` produces the parameter segment. -/
theorem replBr_some_scan : ∀ (x buf rest : List Char), (∀ c ∈ x, c ≠ ']') →
    x ≠ [] ∨ buf ≠ [] →
    replBrAux (some buf) (x ++ ']' :: rest)
      = ':' :: (buf.reverse ++ x) ++ replBrAux none rest := by
  intro x
  induction x with
  | nil =>
    intro buf rest h hne
    have hb : buf ≠ [] := by
      rcases hne with h' | h'
      · exact absurd rfl h'
      · exact h'
    simp only [List.nil_append, replBrAux, true_and]
    rw [if_pos hb]
    simp
  | cons c cs ih =>
    intro buf rest h hne
    have hc : c ≠ ']' := h c (List.mem_cons_self c cs)
    have hcond : ¬(c = ']' ∧ buf ≠ []) := fun h' => hc h'.1
    simp only [List.cons_append, replBrAux, if_neg hcond, List.append_eq]
    rw [ih (c :: buf) rest (fun d hd => h d (List.mem_cons_of_mem c hd)) (Or.inr (by simp))]
    simp

/-- One spec segment distributes over the bracket substitution. -/
theorem replBr_seg (d s : String) (h : SpecSeg d s) (rest : List Char) :
    replBrAux none (('/' :: d.toList) ++ rest) = '/' :: s.toList ++ replBrAux none rest := by
  cases h with
  | plain d hd =>
    have : replBrAux none (('/' :: d.toList) ++ rest)
        = replBrAux none (('/' :: d.toList) ++ rest) := rfl
    calc replBrAux none (('/' :: d.toList) ++ rest)
        = ('/' :: d.toList) ++ replBrAux none rest := by
          apply replBr_none_passthrough
          intro c hc
          rcases List.mem_cons.mp hc with h' | h'
          · rw [h']; decide
          · exact hd c h'
      _ = '/' :: d.toList ++ replBrAux none rest := rfl
  | param x hne hx =>
    have htl : ("[" ++ x ++ "]").toList = '[' :: (x.toList ++ (']' :: [])) := by
      rw [toList_append, toList_append]
      rfl
    rw [htl]
    have hstep : ('/' :: '[' :: (x.toList ++ (']' :: []))) ++ rest
        = '/' :: '[' :: (x.toList ++ (']' :: rest)) := by simp
    rw [hstep]
    have h1 : replBrAux none ('/' :: '[' :: (x.toList ++ (']' :: rest)))
        = '/' :: replBrAux none ('[' :: (x.toList ++ (']' :: rest))) := by
      simp [replBrAux]
    rw [h1]
    have h2 : replBrAux none ('[' :: (x.toList ++ (']' :: rest)))
        = replBrAux (some []) (x.toList ++ (']' :: rest)) := by
      simp [replBrAux]
    rw [h2]
    rw [replBr_some_scan x.toList [] rest (fun c hc => (hx c hc).2) (Or.inl hne)]
    have hs : (":" ++ x).toList = ':' :: x.toList := by
      rw [toList_append]; rfl
    rw [hs]
    simp

/-- The accumulated directory path distributes segment-wise over the
bracket substitution (the heart of claim C4). -/
theorem replBr_segs (ds ss : List String) (h : List.Forall₂ SpecSeg ds ss) :
    replaceBracketsL (segsChars ds) = segsChars ss := by
  unfold replaceBracketsL
  induction h with
  | nil => rfl
  | cons hseg hrest ih =>
    simp only [segsChars]
    rw [replBr_seg _ _ hseg, ih]

/-- The walk's prefix-path accumulator, as characters. -/
theorem foldl_pfx_toList : ∀ (ds : List String) (p : String),
    (ds.foldl (fun a d => a ++ "/" ++ d) p).toList = p.toList ++ segsChars ds := by
  intro ds
  induction ds with
  | nil => intro p; simp [segsChars]
  | cons d rest ih =>
    intro p
    simp only [List.foldl_cons, segsChars]
    rw [ih (p ++ "/" ++ d)]
    rw [toList_append, toList_append]
    simp

/-- A one-entry listing walks exactly like its entry. -/
theorem regWalk_single (ctx : WalkCtx) (mw : MwState) (st : WalkState)
    (curDir pfxPath : String) (e : DirEntry) :
    regWalk ctx mw st curDir pfxPath (.cons e .nil) = regWalkE ctx mw st curDir pfxPath e := by
  rcases hr : regWalkE ctx mw st curDir pfxPath e with ⟨st', err⟩
  cases err with
  | none => simp only [regWalk, hr]
  | some e' => simp only [regWalk, hr]

/-- Walking the nested chain `d₁/…/dₙ/fname` processes the single file at
the accumulated directory and path prefix. -/
theorem regWalk_nest : ∀ (ds : List String) (ctx : WalkCtx) (mw : MwState) (st : WalkState)
    (curDir pfxPath fname : String) (mod : RouteModule),
    regWalk ctx mw st curDir pfxPath (.cons (nestTree fname mod ds) .nil)
      = processFile ctx mw st (ds.foldl joinPath curDir)
          (ds.foldl (fun a d => a ++ "/" ++ d) pfxPath) fname mod := by
  intro ds
  induction ds with
  | nil =>
    intro ctx mw st curDir pfxPath fname mod
    rw [regWalk_single]
    rfl
  | cons d rest ih =>
    intro ctx mw st curDir pfxPath fname mod
    rw [regWalk_single]
    show regWalk ctx mw st (joinPath curDir d) (pfxPath ++ "/" ++ d)
      (.cons (nestTree fname mod rest) .nil) = _
    rw [ih]
    rfl


/-- Processing a fresh method file (no prior registrations, no
middlewares, module with a default export and no middleware declaration)
registers exactly one route at `mkRoutePath`. -/
theorem processFile_fresh (normPfx pfxPath curDir fname : String) (strict : Bool)
    (m fileExt : String) (hm : parseMethodFile fname = some (m, fileExt)) :
    processFile ⟨normPfx, strict, true⟩ ⟨[], []⟩ ⟨⟨[], [], []⟩, []⟩ curDir pfxPath fname
      ⟨some 0, none, .undefined⟩
      = (⟨⟨[(m ++ ":" ++ normalizeDynamic (mkRoutePath normPfx pfxPath), joinPath curDir fname)],
           [(m ++ ":" ++ mkRoutePath normPfx pfxPath, joinPath curDir fname)], []⟩,
          [⟨m, mkRoutePath normPfx pfxPath, [], .fn 0⟩]⟩, none) := by
  simp [processFile, hm, extConflictCheck, afterConflicts, importCheck, middlewaresDecl,
    truthy, resolveMiddlewares, resolveHandler, mapSetS]

/-- `registerRoutes` with no middleware files reduces to the walk from the
empty state. -/
theorem registerRoutes_empty_mw (tsx : Bool) (tree : DirList) (routesDir : String)
    (opts : RegOptions) :
    registerRoutes tsx [] tree routesDir opts
      = (match regWalk ⟨stripTrailingSlashes opts.pfx, opts.strict, tsx⟩ ⟨[], []⟩
           ⟨⟨[], [], []⟩, []⟩ ("src/" ++ routesDir) "" tree with
         | (st, err) => ⟨st.registered, st.regs.warnings, err.map .walk⟩) := rfl

/-- Counterexample to C4 as stated: a method file at the routes root with
an empty prefix is registered at the empty path `""`, not at `"/"`. -/
theorem c4_counterexample :
    (registerRoutes true [] (.cons (.file "GET.js" ⟨some 0, none, .undefined⟩) .nil)
        "routes" ⟨"", false⟩).registered
      = [⟨"get", "", [], .fn 0⟩]
    ∧ ("" : String) ≠ "/" := ⟨by decide, by decide⟩

/-- Claim C4 (amended): a route file's final URL path is the configured
prefix with trailing slashes stripped, concatenated with the directory
path from the routes root in which every folder named `[x]` becomes the
segment `:x`, with backslashes normalized and repeated separators
collapsed to one; a method file at the routes root resolves to the
(normalized) prefix itself — which is the empty string, not `"/"`, when
the prefix is empty. -/
theorem c4_route_path (pfxStr : String) (strict : Bool) (ds ss : List String)
    (hss : List.Forall₂ SpecSeg ds ss) (fname m fileExt : String)
    (hm : parseMethodFile fname = some (m, fileExt)) :
    (registerRoutes true [] (.cons (nestTree fname ⟨some 0, none, .undefined⟩ ds) .nil)
        "routes" ⟨pfxStr, strict⟩).registered
      = [⟨m, String.mk (collapseSlashesL (backslashToSlashL
            ((stripTrailingSlashes pfxStr).toList ++ segsChars ss))), [], .fn 0⟩]
    ∧ (ds = [] →
        (registerRoutes true [] (.cons (nestTree fname ⟨some 0, none, .undefined⟩ ds) .nil)
            "routes" ⟨pfxStr, strict⟩).registered
          = [⟨m, String.mk (collapseSlashesL (backslashToSlashL
                (stripTrailingSlashes pfxStr).toList)), [], .fn 0⟩])
    ∧ (pfxStr = "" → ds = [] →
        (registerRoutes true [] (.cons (nestTree fname ⟨some 0, none, .undefined⟩ ds) .nil)
            "routes" ⟨pfxStr, strict⟩).registered
          = [⟨m, "", [], .fn 0⟩]) := by
  have hpath : mkRoutePath (stripTrailingSlashes pfxStr)
      (ds.foldl (fun a d => a ++ "/" ++ d) "")
      = String.mk (collapseSlashesL (backslashToSlashL
          ((stripTrailingSlashes pfxStr).toList ++ segsChars ss))) := by
    unfold mkRoutePath
    rw [foldl_pfx_toList ds ""]
    have h0 : ("" : String).toList = [] := rfl
    rw [h0, List.nil_append]
    rw [replBr_segs ds ss hss]
  have hmain : (registerRoutes true [] (.cons (nestTree fname ⟨some 0, none, .undefined⟩ ds)
        .nil) "routes" ⟨pfxStr, strict⟩).registered
      = [⟨m, String.mk (collapseSlashesL (backslashToSlashL
            ((stripTrailingSlashes pfxStr).toList ++ segsChars ss))), [], .fn 0⟩] := by
    rw [registerRoutes_empty_mw]
    rw [regWalk_nest ds ⟨stripTrailingSlashes pfxStr, strict, true⟩ ⟨[], []⟩ ⟨⟨[], [], []⟩, []⟩
      ("src/" ++ "routes") "" fname ⟨some 0, none, .undefined⟩]
    rw [processFile_fresh (stripTrailingSlashes pfxStr)
      (ds.foldl (fun a d => a ++ "/" ++ d) "") (ds.foldl joinPath ("src/" ++ "routes"))
      fname strict m fileExt hm]
    rw [hpath]
  refine ⟨hmain, ?_, ?_⟩
  · intro hds
    subst hds
    cases hss
    simpa [segsChars] using hmain
  · intro hpfx hds
    subst hpfx
    subst hds
    cases hss
    have : String.mk (collapseSlashesL (backslashToSlashL
        ((stripTrailingSlashes "").toList ++ segsChars []))) = "" := rfl
    rw [← this]
    exact hmain

/-- Witness for the amended C4: the tree `product/[id]/GET.js` under the
prefix `/api` registers `get /api/product/:id`. -/
theorem c4_witness :
    (registerRoutes true [] (.cons (nestTree "GET.js" ⟨some 0, none, .undefined⟩
        ["product", "[id]"]) .nil) "routes" ⟨"/api", false⟩).registered
      = [⟨"get", String.mk (collapseSlashesL (backslashToSlashL
          ((stripTrailingSlashes "/api").toList ++ segsChars ["product", ":id"]))),
         [], .fn 0⟩] := by
  exact (c4_route_path "/api" false ["product", "[id]"] ["product", ":id"]
    (List.Forall₂.cons (SpecSeg.plain "product" (by decide))
      (List.Forall₂.cons (SpecSeg.param "id" (by decide) (by decide)) List.Forall₂.nil))
    "GET.js" "get" "js" (by decide)).1

/-! ### Equivalence of live registration and introspection (C5) -/

/-- The simulation relation between the two walks: identical registries
and warnings, and reported (method, path) pairs matching the registered
routes (introspection upper-cases the method for display). -/
def Sim (r : WalkState) (i : InspState) : Prop :=
  r.regs = i.regs ∧
  i.routes.map (fun x => (x.method, x.path))
    = r.registered.map (fun x => (upperStr x.method, x.path))

/-- After the conflict checks, the two per-file tails agree: same error,
related states. -/
theorem after_sim (ctx : WalkCtx) (mw : MwState) (regs : Registries)
    (reg : List RegisteredRoute) (rts : List RouteInfo)
    (hmap : rts.map (fun x => (x.method, x.path))
      = reg.map (fun x => (upperStr x.method, x.path)))
    (fullPath m fileExt routePath sig : String) (mod : RouteModule) :
    (inspAfterConflicts ctx mw ⟨regs, rts⟩ fullPath m fileExt routePath sig mod).2
      = (afterConflicts ctx mw ⟨regs, reg⟩ fullPath m routePath sig mod).2
    ∧ Sim (afterConflicts ctx mw ⟨regs, reg⟩ fullPath m routePath sig mod).1
          (inspAfterConflicts ctx mw ⟨regs, rts⟩ fullPath m fileExt routePath sig mod).1 := by
  unfold afterConflicts inspAfterConflicts
  cases hic : importCheck ctx.tsx fullPath with
  | some e => exact ⟨rfl, rfl, hmap⟩
  | none =>
    cases hd : middlewaresDecl mod with
    | arr names =>
      cases hr : resolveMiddlewares mw names with
      | error err =>
        cases err with
        | notFound nm avail => simp [hic, hd, hr, Sim, hmap]
      | ok chain => simp [hic, hd, hr, Sim, hmap]
    | undefined => simp [hic, hd, Sim, hmap]
    | null => simp [hic, hd, Sim, hmap]
    | bool b => simp [hic, hd, Sim, hmap]
    | num x => simp [hic, hd, Sim, hmap]
    | str s => simp [hic, hd, Sim, hmap]
    | fnVal f => simp [hic, hd, Sim, hmap]

/-- Per-file simulation: the two per-file processors detect the same
conflicts with the same outcome and keep the states related. -/
theorem step_sim (ctx : WalkCtx) (mw : MwState) (regs : Registries)
    (reg : List RegisteredRoute) (rts : List RouteInfo)
    (hmap : rts.map (fun x => (x.method, x.path))
      = reg.map (fun x => (upperStr x.method, x.path)))
    (curDir pfxPath fname : String) (mod : RouteModule) :
    (inspProcessFile ctx mw ⟨regs, rts⟩ curDir pfxPath fname mod).2
      = (processFile ctx mw ⟨regs, reg⟩ curDir pfxPath fname mod).2
    ∧ Sim (processFile ctx mw ⟨regs, reg⟩ curDir pfxPath fname mod).1
          (inspProcessFile ctx mw ⟨regs, rts⟩ curDir pfxPath fname mod).1 := by
  cases hp : parseMethodFile fname with
  | none => simp [processFile, inspProcessFile, hp, Sim, hmap]
  | some v =>
    obtain ⟨m, fileExt⟩ := v
    cases hec : extConflictCheck regs.fileRegistry
        (m ++ ":" ++ mkRoutePath ctx.normPfx pfxPath) fileExt with
    | some existing => simp [processFile, inspProcessFile, hp, hec, Sim, hmap]
    | none =>
      cases hfp : List.lookup (m ++ ":" ++ normalizeDynamic (mkRoutePath ctx.normPfx pfxPath))
          regs.routeRegistry with
      | some prev =>
        cases hst : ctx.strict with
        | true => simp [processFile, inspProcessFile, hp, hec, hfp, hst, Sim, hmap]
        | false =>
          have h := after_sim ctx mw
            ⟨regs.routeRegistry, regs.fileRegistry, regs.warnings ++
              [⟨prev, joinPath curDir fname, m, mkRoutePath ctx.normPfx pfxPath⟩]⟩
            reg rts hmap (joinPath curDir fname) m fileExt
            (mkRoutePath ctx.normPfx pfxPath) (m ++ ":" ++ mkRoutePath ctx.normPfx pfxPath) mod
          simp only [processFile, inspProcessFile, hp, hec, hfp, hst, Bool.false_eq_true,
            if_false]
          exact ⟨h.1, h.2⟩
      | none =>
        have h := after_sim ctx mw
          ⟨mapSetS regs.routeRegistry
            (m ++ ":" ++ normalizeDynamic (mkRoutePath ctx.normPfx pfxPath))
            (joinPath curDir fname), regs.fileRegistry, regs.warnings⟩
          reg rts hmap (joinPath curDir fname) m fileExt
          (mkRoutePath ctx.normPfx pfxPath) (m ++ ":" ++ mkRoutePath ctx.normPfx pfxPath) mod
        simp only [processFile, inspProcessFile, hp, hec, hfp]
        exact ⟨h.1, h.2⟩

/-- Walk-level simulation: over any tree, the two walks raise the same
error (or none) and keep the states related. -/
theorem walk_sim (n : Nat) : ∀ (l : DirList), listSize l ≤ n →
    ∀ (ctx : WalkCtx) (mw : MwState) (str : WalkState) (sti : InspState)
      (curDir pfxPath : String), Sim str sti →
    (inspWalk ctx mw sti curDir pfxPath l).2 = (regWalk ctx mw str curDir pfxPath l).2
    ∧ Sim (regWalk ctx mw str curDir pfxPath l).1 (inspWalk ctx mw sti curDir pfxPath l).1 := by
  induction n with
  | zero =>
    intro l hl ctx mw str sti curDir pfxPath hsim
    cases l with
    | nil => exact ⟨rfl, hsim⟩
    | cons e rest =>
      exfalso
      have := entrySize_pos e
      simp [listSize] at hl
      omega
  | succ n ih =>
    intro l hl ctx mw str sti curDir pfxPath hsim
    cases l with
    | nil => exact ⟨rfl, hsim⟩
    | cons e rest =>
      cases e with
      | file name mod =>
        obtain ⟨regs_r, reg⟩ := str
        obtain ⟨regs_i, rts⟩ := sti
        obtain ⟨hregs, hmap⟩ := hsim
        simp only at hregs
        subst hregs
        have hstep := step_sim ctx mw regs_r reg rts hmap curDir pfxPath name mod
        rcases hr : processFile ctx mw ⟨regs_r, reg⟩ curDir pfxPath name mod with ⟨str', erR⟩
        rcases hi : inspProcessFile ctx mw ⟨regs_r, rts⟩ curDir pfxPath name mod with ⟨sti', erI⟩
        rw [hr, hi] at hstep
        obtain ⟨herr, hsim'⟩ := hstep
        simp only at herr
        subst herr
        have hsz : listSize rest ≤ n := by
          have hpos := entrySize_pos (DirEntry.file name mod)
          simp only [listSize] at hl
          omega
        cases erI with
        | some e' =>
          have h1 : regWalk ctx mw ⟨regs_r, reg⟩ curDir pfxPath
              (.cons (.file name mod) rest) = (str', some e') := by
            simp only [regWalk, regWalkE, hr]
          have h2 : inspWalk ctx mw ⟨regs_r, rts⟩ curDir pfxPath
              (.cons (.file name mod) rest) = (sti', some e') := by
            simp only [inspWalk, inspWalkE, hi]
          rw [h1, h2]
          exact ⟨rfl, hsim'⟩
        | none =>
          have h1 : regWalk ctx mw ⟨regs_r, reg⟩ curDir pfxPath
              (.cons (.file name mod) rest)
              = regWalk ctx mw str' curDir pfxPath rest := by
            simp only [regWalk, regWalkE, hr]
          have h2 : inspWalk ctx mw ⟨regs_r, rts⟩ curDir pfxPath
              (.cons (.file name mod) rest)
              = inspWalk ctx mw sti' curDir pfxPath rest := by
            simp only [inspWalk, inspWalkE, hi]
          rw [h1, h2]
          exact ih rest hsz ctx mw str' sti' curDir pfxPath hsim'
      | dir name children =>
        have hszc : listSize children ≤ n := by
          simp only [listSize, entrySize] at hl
          omega
        have hch := ih children hszc
          ctx mw str sti (joinPath curDir name) (pfxPath ++ "/" ++ name) hsim
        rcases hr : regWalk ctx mw str (joinPath curDir name) (pfxPath ++ "/" ++ name)
          children with ⟨str', erR⟩
        rcases hi : inspWalk ctx mw sti (joinPath curDir name) (pfxPath ++ "/" ++ name)
          children with ⟨sti', erI⟩
        rw [hr, hi] at hch
        obtain ⟨herr, hsim'⟩ := hch
        simp only at herr
        subst herr
        have hsz : listSize rest ≤ n := by
          simp only [listSize, entrySize] at hl
          omega
        cases erI with
        | some e' =>
          have h1 : regWalk ctx mw str curDir pfxPath (.cons (.dir name children) rest)
              = (str', some e') := by
            simp only [regWalk, regWalkE, hr]
          have h2 : inspWalk ctx mw sti curDir pfxPath (.cons (.dir name children) rest)
              = (sti', some e') := by
            simp only [inspWalk, inspWalkE, hi]
          rw [h1, h2]
          exact ⟨rfl, hsim'⟩
        | none =>
          have h1 : regWalk ctx mw str curDir pfxPath (.cons (.dir name children) rest)
              = regWalk ctx mw str' curDir pfxPath rest := by
            simp only [regWalk, regWalkE, hr]
          have h2 : inspWalk ctx mw sti curDir pfxPath (.cons (.dir name children) rest)
              = inspWalk ctx mw sti' curDir pfxPath rest := by
            simp only [inspWalk, inspWalkE, hi]
          rw [h1, h2]
          exact ih rest hsz ctx mw str' sti' curDir pfxPath hsim'

/-- Claim C5: on the same input tree and options, introspection raises
exactly the errors live registration raises (same kind, same files), emits
exactly the same warnings, and — when it returns a report — the set of
(method, path) routes it reports is exactly the set registration hands to
the host application (introspection upper-cases the method for display
and sorts its report; the comparison is up to permutation). -/
theorem c5_inspect_register_equiv (tsx : Bool) (mwFiles : List MwFile) (tree : DirList)
    (routesDir : String) (opts : RegOptions) :
    (inspectRoutes tsx mwFiles tree routesDir opts).err
      = (registerRoutes tsx mwFiles tree routesDir opts).err
    ∧ (inspectRoutes tsx mwFiles tree routesDir opts).warnings
      = (registerRoutes tsx mwFiles tree routesDir opts).warnings
    ∧ (∀ rep, (inspectRoutes tsx mwFiles tree routesDir opts).report = some rep →
        List.Perm (rep.routes.map (fun r => (r.method, r.path)))
          ((registerRoutes tsx mwFiles tree routesDir opts).registered.map
            (fun r => (upperStr r.method, r.path)))) := by
  unfold inspectRoutes registerRoutes
  cases hld : loadMiddlewares mwFiles with
  | error e => exact ⟨rfl, rfl, fun rep h => by cases h⟩
  | ok mw =>
    have hsim := walk_sim (listSize tree) tree (le_refl _)
      ⟨stripTrailingSlashes opts.pfx, opts.strict, tsx⟩ mw
      ⟨⟨[], [], []⟩, []⟩ ⟨⟨[], [], []⟩, []⟩ ("src/" ++ routesDir) ""
      (show Sim ⟨⟨[], [], []⟩, []⟩ ⟨⟨[], [], []⟩, []⟩ from ⟨rfl, rfl⟩)
    rcases hw : regWalk ⟨stripTrailingSlashes opts.pfx, opts.strict, tsx⟩ mw
      ⟨⟨[], [], []⟩, []⟩ ("src/" ++ routesDir) "" tree with ⟨str, erR⟩
    rcases hi : inspWalk ⟨stripTrailingSlashes opts.pfx, opts.strict, tsx⟩ mw
      ⟨⟨[], [], []⟩, []⟩ ("src/" ++ routesDir) "" tree with ⟨sti, erI⟩
    rw [hw, hi] at hsim
    have herr := hsim.1
    obtain ⟨hregs, hmap⟩ := hsim.2
    simp only at herr
    subst herr
    simp only [hw, hi]
    cases erI with
    | some e' =>
      refine ⟨rfl, by rw [hregs], fun rep h => by cases h⟩
    | none =>
      refine ⟨rfl, by rw [hregs], fun rep h => ?_⟩
      have hrep : rep = ⟨sti.routes.insertionSort (fun a b => routeLe a b = true),
          (getAvailableMiddlewares mw).1, (getAvailableMiddlewares mw).2,
          sti.routes.length, (getAvailableMiddlewares mw).2.length,
          (getAvailableMiddlewares mw).1.length,
          sti.routes.foldl (fun acc r => bumpCount acc r.method) []⟩ := by
        cases h
        rfl
      subst hrep
      have hperm : List.Perm
          (sti.routes.insertionSort (fun a b => routeLe a b = true)) sti.routes :=
        List.perm_insertionSort _ _
      have h1 : List.Perm
          ((sti.routes.insertionSort (fun a b => routeLe a b = true)).map
            (fun r => (r.method, r.path)))
          (sti.routes.map (fun r => (r.method, r.path))) := hperm.map _
      rw [hmap] at h1
      exact h1

/-- The report `inspectRoutes` returns for the C5 witness input. -/
def c5Rep : InspectReport :=
  ⟨[⟨"GET", "", "src/routes/GET.js", "JavaScript", [], "default"⟩], [], [], 1, 0, 0,
   [("GET", 1)]⟩

/-- Witness for C5 at a concrete input: a single root `GET.js`; the
reported route set matches the registered one. -/
theorem c5_witness :
    List.Perm (c5Rep.routes.map (fun r => (r.method, r.path)))
      ((registerRoutes true [] (.cons (.file "GET.js" ⟨some 0, none, .undefined⟩) .nil)
          "routes" ⟨"", false⟩).registered.map (fun r => (upperStr r.method, r.path))) := by
  exact (c5_inspect_register_equiv true []
    (.cons (.file "GET.js" ⟨some 0, none, .undefined⟩) .nil)
    "routes" ⟨"", false⟩).2.2 c5Rep (by decide)
